import Mathlib

/-!
# Arcaflow workflow engine: the DAG-driven scheduler

A shallow embedding of `workflow/workflow.go` (package `workflow`): the expression
resolver `resolveExpressions`, the scheduler pass `notifySteps`, the stage-completion
handler `onStageComplete` and the executor front-end `Execute`.

Conventions of the embedding.

* Go values of type `any` are the tagged tree `Value`.  The static element and key types of
  Go slices and maps are not represented: every sequence is a `Value.slice`, every mapping a
  `Value.map` whose keys are of type `Key`.  The one dynamic type the file tests, the
  `map[any]any` of the type assertion in line 245, is carried beside the resolved value
  (`resolvesToAnyKeyedMap`).
* Collaborators outside the file (expression evaluation, schemas, running steps, node-id
  helpers) are fields of `Env`, or functions stored in the DAG item.
* Go maps are association lists; the order of a list stands for the iteration order that the
  Go runtime picks.  Theorems quantify over all lists, hence over all iteration orders.
* A Go panic, an early `return` and falling off the end of a function are the three
  constructors of `PassResult`.
* Calls that leave the scheduler (`Errorf`, `cancel`, `ProvideStageInput`, a channel send,
  `Start`, `Close`) are appended to the `trace` of the loop state, oldest first.
-/

namespace Workflow

/-! ## Values and errors -/

/-- Leaves of a value tree that are not expressions; `null` is the Go `nil` interface. -/
inductive Scalar where
  | null
  | str (s : String)
  | int (i : Int)
  | bool (b : Bool)
deriving DecidableEq, Repr

/-- Key of a Go map with keys of type `any`: a comparable value, which is a scalar or a value
implementing `expressions.Expression` (slices and maps cannot be keys). -/
inductive Key where
  | scalar (s : Scalar)
  | expr (e : String)
deriving DecidableEq, Repr

/-- The key that is the Go string `s`. -/
abbrev Key.str (s : String) : Key := Key.scalar (Scalar.str s)

/-- Value of Go type `any` as it occurs in input templates, resolved inputs and the data model.
`expr e` is a value implementing `expressions.Expression`; `e` is its `String()`. -/
inductive Value where
  | scalar (s : Scalar)
  | expr (e : String)
  | slice (xs : List Value)
  | map (kvs : List (Key × Value))
deriving Repr

/-- Errors built by the file with `fmt.Errorf`, one constructor per format string; `cause` is
the `%w` operand.  `external` is an error returned by a collaborator. -/
inductive Error where
  | external (msg : String)
  | invalidInput (cause : Error)
  | launchFailed (stepID : String) (cause : Error)
  | closeFailed (stepID : String) (cause : Error)
  | inputNodeMissing (cause : Error)
  | inputNodeRemove (cause : Error)
  | channelClosed
  | aborted
  | getStageNode (nodeID : String) (cause : Error)
  | removeStageNode (nodeID : String) (cause : Error)
  | getOutputNode (nodeID : String) (cause : Error)
  | removeOutputNode (nodeID : String) (cause : Error)
  | cannotResolve (nodeID : String) (cause : Error)
  | resolveFailed (cause : Error)
  | schemaBug (nodeID : String) (cause : Error)
  | provideBug (stepID : String) (cause : Error)
  | cannotFetchOutput (cause : Error)
  | deadlock (unmetDependencies : List String)
  | runtime (what : String)
deriving DecidableEq, Repr

/-- The `workflowContext` field: `map[string][]byte`. -/
abbrev WorkflowContext := List (String × List Nat)

/-- The test `inputData == nil` of `notifySteps`. -/
def Value.isNil : Value → Bool
  | Value.scalar Scalar.null => true
  | _ => false

/-- Go map read `m[k]` on an association list: `none` when the key is absent. -/
def mapGet : List (Key × Value) → Key → Option Value
  | [], _ => none
  | (k, v) :: rest, key => if k = key then some v else mapGet rest key

/-- Go map write `m[k] = v`: replaces the entry of `k`, or adds one. -/
def mapSet : List (Key × Value) → Key → Value → List (Key × Value)
  | [], key, val => [(key, val)]
  | (k, v) :: rest, key, val =>
    if k = key then (k, val) :: rest else (k, v) :: mapSet rest key val

/-! ## Collaborators -/

/-- Result of `RunningStep.State()`. -/
inductive RunningStepState where
  | RunningStepStateStarting
  | RunningStepStateWaitingForInput
  | RunningStepStateRunning
  | RunningStepStateFinished
deriving DecidableEq, Repr

open RunningStepState

/-- Modelled from the spec: the declaration of `DAGItemKind` is not in the source file; the spec
lists the four node payloads (input, step stage, stage-output marker, workflow output).
`DAGItemKindOutput` is the workflow output: its case in `notifySteps` constructs the workflow
output. -/
inductive DAGItemKind where
  | DAGItemKindInput
  | DAGItemKindStepStage
  | DAGItemKindStepStageOutput
  | DAGItemKindOutput
deriving DecidableEq, Repr

open DAGItemKind

/-- The capability `schema.Scope` as far as the file uses it: `Unserialize`. -/
structure Schema where
  Unserialize : Value → Except Error Value

/-- Modelled from the spec: the declaration of `DAGItem` is not in the source file; these are the
fields `notifySteps` reads.  `Input` is of type `any` (`nil` when absent), `InputSchema` is
`none` for a nil schema. -/
structure DAGItem where
  Kind : DAGItemKind
  StepID : String
  StageID : String
  Input : Value
  InputSchema : Option Schema

/-- Node of the graph: `ID()` and `Item()`. -/
structure Node where
  ID : String
  Item : DAGItem

/-- Modelled from the spec: the graph library `dgraph` is outside the repository.  A graph is its
nodes (a Go map keyed by id, here in iteration order) and its connections `(from, to)`. -/
structure DirectedGraph where
  nodes : List Node
  connections : List (String × String)

/-- Node ids that have a connection into `id`: the keys of `ListInboundConnections()`. -/
def DirectedGraph.ListInboundConnections (d : DirectedGraph) (id : String) : List String :=
  (d.connections.filter (fun c => c.2 = id)).map Prod.fst

/-- Nodes into which no connection leads, in iteration order. -/
def DirectedGraph.ListNodesWithoutInboundConnections (d : DirectedGraph) : List Node :=
  d.nodes.filter (fun n => (d.ListInboundConnections n.ID).isEmpty)

/-- Lookup by id; the library returns an error when the node does not exist. -/
def DirectedGraph.GetNodeByID (d : DirectedGraph) (id : String) : Except Error Node :=
  match d.nodes.find? (fun n => n.ID = id) with
  | some n => Except.ok n
  | none => Except.error (Error.external "node not found")

/-- Removal of node `id` with all connections from and to it (`node.Remove()`); the library
returns an error when the node was already deleted. -/
def DirectedGraph.Remove (d : DirectedGraph) (id : String) : Except Error DirectedGraph :=
  if d.nodes.any (fun n => n.ID = id) then
    Except.ok {
      nodes := d.nodes.filter (fun n => n.ID ≠ id)
      connections := d.connections.filter (fun c => c.1 ≠ id ∧ c.2 ≠ id) }
  else Except.error (Error.external "node deleted")

/-- What the world outside the scheduler answers during one call.
`EvaluatesToAnyKeyedMap` tells whether the value that `Evaluate` returns has the dynamic Go
type `map[any]any` (the tree `Value` does not carry it).  `State` and `ProvideStageInput` are
the methods of the running step stored under a step id; `GetStageNodeID` and
`GetOutputNodeID` are helpers of the package that are not in the source file. -/
structure Env where
  Evaluate : String → Value → WorkflowContext → Except Error Value
  EvaluatesToAnyKeyedMap : String → Value → WorkflowContext → Bool
  State : String → RunningStepState
  ProvideStageInput : String → String → List (String × Value) → Option Error
  GetStageNodeID : String → String → String
  GetOutputNodeID : String → String → String → String

/-! ## Loop state -/

/-- Calls that leave the scheduler.  `provide` and `send` also record the id of the DAG node
whose dispatch made the call. -/
inductive Event where
  | errorf (e : Error)
  | cancel
  | provide (nodeID stepID stageID : String) (input : List (String × Value))
  | send (nodeID : String) (v : Value)
  | start (stepID : String)
  | close (stepID : String)

/-- The struct `loopState`.  `runningSteps` holds the keys of the Go map (the handles answer
through `Env`), `outputDataChannel` the values sent so far, `cancelled` whether `cancel` was
called; `logger` and `lock` are not represented (every function below runs under the
lock). -/
structure loopState where
  data : Value
  dag : DirectedGraph
  inputsNotified : List String
  runningSteps : List String
  outputDataChannel : List Value
  outputDone : Bool
  lastError : Option Error
  cancelled : Bool
  workflowContext : WorkflowContext
  trace : List Event

/-- How a call ended: it ran to its last statement, it left through an early `return`, or it
panicked.  Each carries the loop state at that moment. -/
inductive PassResult where
  | completed (l : loopState)
  | returned (l : loopState)
  | panicked (l : loopState) (e : Error)

/-- Loop state carried by a result. -/
def PassResult.state : PassResult → loopState
  | PassResult.completed l => l
  | PassResult.returned l => l
  | PassResult.panicked l _ => l

/-- The three statements of every error path: `Errorf`, `l.lastError = ...`, `l.cancel()`. -/
def loopState.fail (l : loopState) (e : Error) : loopState :=
  { l with
    lastError := some e
    cancelled := true
    trace := l.trace ++ [Event.errorf e, Event.cancel] }

/-! ## `resolveExpressions` -/

mutual
/-- The method `resolveExpressions`: an expression is evaluated, slices and maps are rebuilt
from their resolved elements, anything else is returned as it is. -/
def resolveExpressions (env : Env) (ctx : WorkflowContext) (dataModel : Value) :
    Value → Except Error Value
  | Value.expr e => env.Evaluate e dataModel ctx
  | Value.slice xs =>
    match resolveSlice env ctx dataModel xs with
    | Except.ok result => Except.ok (Value.slice result)
    | Except.error err => Except.error err
  | Value.map kvs =>
    match resolveMap env ctx dataModel kvs with
    | Except.ok result => Except.ok (Value.map result)
    | Except.error err => Except.error err
  | Value.scalar s => Except.ok (Value.scalar s)
/-- The loop of the `reflect.Slice` case, from index `i` on. -/
def resolveSlice (env : Env) (ctx : WorkflowContext) (dataModel : Value) :
    List Value → Except Error (List Value)
  | [] => Except.ok []
  | value :: rest =>
    match resolveExpressions env ctx dataModel value with
    | Except.error err => Except.error (Error.resolveFailed err)
    | Except.ok newValue =>
      match resolveSlice env ctx dataModel rest with
      | Except.error err => Except.error err
      | Except.ok result => Except.ok (newValue :: result)
/-- The loop of the `reflect.Map` case over the remaining keys. -/
def resolveMap (env : Env) (ctx : WorkflowContext) (dataModel : Value) :
    List (Key × Value) → Except Error (List (Key × Value))
  | [] => Except.ok []
  | (key, value) :: rest =>
    match resolveExpressions env ctx dataModel value with
    | Except.error err => Except.error (Error.resolveFailed err)
    | Except.ok newValue =>
      match resolveMap env ctx dataModel rest with
      | Except.error err => Except.error err
      | Except.ok result => Except.ok ((key, newValue) :: result)
end

/-! ## `notifySteps` -/

/-- The loop `for k, v := range stageInputData { typedInputData[k.(string)] = v }`; `none` is
the panic of the type assertion `k.(string)`. -/
def typedInputData : List (Key × Value) → Option (List (String × Value))
  | [] => some []
  | (Key.scalar (Scalar.str k), v) :: rest =>
    match typedInputData rest with
    | some result => some ((k, v) :: result)
    | none => none
  | _ :: _ => none

/-- Whether the value that `resolveExpressions` returns for the template `inputData` has the
dynamic Go type `map[any]any`.  A template of kind map is rebuilt as `map[any]any` (line
343); for a template that is itself an expression the result of `Evaluate` is returned
unconverted (line 327), with the type the expression library gave it; every other template
resolves to a slice of type `[]any` or to itself, which is no map. -/
def resolvesToAnyKeyedMap (env : Env) (ctx : WorkflowContext) (dataModel : Value) :
    Value → Bool
  | Value.map _ => true
  | Value.expr e => env.EvaluatesToAnyKeyedMap e dataModel ctx
  | _ => false

/-- The type assertion `untypedInputData.(map[any]any)` of line 245: the entries of the map
when the dynamic type of the value is `map[any]any`, `none` for the panic otherwise (also
for a map of another type, such as `map[string]any`). -/
def assertAnyKeyedMap (untypedInputData : Value) (anyKeyed : Bool) :
    Option (List (Key × Value)) :=
  match untypedInputData, anyKeyed with
  | Value.map stageInputData, true => some stageInputData
  | _, _ => none

/-- Lines 244 to 260: the delivery of a resolved, validated stage input; `anyKeyed` tells
whether the dynamic type of `untypedInputData` is `map[any]any`. -/
def provideInput (env : Env) (l : loopState) (node : Node) (untypedInputData : Value)
    (anyKeyed : Bool) : PassResult :=
  if node.Item.StepID ≠ "" ∧ node.Item.StageID ≠ "" then
    match assertAnyKeyedMap untypedInputData anyKeyed with
    | some stageInputData =>
      match typedInputData stageInputData with
      | none => PassResult.panicked l (Error.runtime "interface conversion: key is not string")
      | some typed =>
        if node.Item.StepID ∈ l.runningSteps then
          let l1 := { l with
            trace := l.trace ++ [Event.provide node.ID node.Item.StepID node.Item.StageID typed] }
          match env.ProvideStageInput node.Item.StepID node.Item.StageID typed with
          | some err => PassResult.returned (l1.fail (Error.provideBug node.Item.StepID err))
          | none => PassResult.completed l1
        else PassResult.panicked l (Error.runtime "nil pointer dereference")
    | none => PassResult.panicked l (Error.runtime "interface conversion: not map[any]any")
  else PassResult.completed l

/-- The `switch node.Item().Kind` of lines 231 to 266; `anyKeyed` tells whether the dynamic
type of `untypedInputData` is `map[any]any`. -/
def dispatch (env : Env) (l : loopState) (node : Node) (untypedInputData : Value)
    (anyKeyed : Bool) : PassResult :=
  match node.Item.Kind with
  | DAGItemKindStepStage =>
    match node.Item.InputSchema with
    | none => PassResult.completed l
    | some inputSchema =>
      match inputSchema.Unserialize untypedInputData with
      | Except.error err => PassResult.returned (l.fail (Error.schemaBug node.ID err))
      | Except.ok _ => provideInput env l node untypedInputData anyKeyed
  | DAGItemKindOutput =>
    PassResult.completed { l with
      outputDone := true
      outputDataChannel := l.outputDataChannel ++ [untypedInputData]
      trace := l.trace ++ [Event.send node.ID untypedInputData] }
  | _ => PassResult.completed l

/-- One iteration of the loop of lines 215 to 267; `completed` means that the loop goes on. -/
def notifyNode (env : Env) (l : loopState) (node : Node) : PassResult :=
  if node.ID ∈ l.inputsNotified then PassResult.completed l
  else
    let l1 := { l with inputsNotified := l.inputsNotified ++ [node.ID] }
    if node.Item.Input.isNil then PassResult.completed l1
    else
      match resolveExpressions env l1.workflowContext l1.data node.Item.Input with
      | Except.error err => PassResult.panicked l1 (Error.cannotResolve node.ID err)
      | Except.ok untypedInputData =>
        dispatch env l1 node untypedInputData
          (resolvesToAnyKeyedMap env l1.workflowContext l1.data node.Item.Input)

/-- The loop over `nodesWithoutInbound`. -/
def notifyLoop (env : Env) : loopState → List Node → PassResult
  | l, [] => PassResult.completed l
  | l, node :: rest =>
    match notifyNode env l node with
    | PassResult.completed l1 => notifyLoop env l1 rest
    | r => r

/-- Counter of the `stats` struct: the running steps whose `State()` is `s`. -/
def countState (env : Env) (l : loopState) (s : RunningStepState) : Nat :=
  (l.runningSteps.filter (fun stepID => env.State stepID = s)).length

/-- The condition of line 296:
`stats.starting == 0 && stats.running == 0 && stats.waiting > 0 && !l.outputDone`. -/
def deadlockCondition (env : Env) (l : loopState) : Prop :=
  countState env l RunningStepStateStarting = 0
    ∧ countState env l RunningStepStateRunning = 0
    ∧ countState env l RunningStepStateWaitingForInput > 0
    ∧ l.outputDone = false

instance (env : Env) (l : loopState) : Decidable (deadlockCondition env l) := by
  unfold deadlockCondition
  infer_instance

/-- Lines 268 to 312: the deadlock check. -/
def deadlockCheck (env : Env) (l : loopState) : PassResult :=
  if deadlockCondition env l then
    match l.dag.GetNodeByID "output" with
    | Except.error err => PassResult.panicked l (Error.cannotFetchOutput err)
    | Except.ok outputNode =>
      PassResult.completed
        (l.fail (Error.deadlock (l.dag.ListInboundConnections outputNode.ID)))
  else PassResult.completed l

/-- The method `notifySteps`. -/
def notifySteps (env : Env) (l : loopState) : PassResult :=
  match notifyLoop env l l.dag.ListNodesWithoutInboundConnections with
  | PassResult.completed l1 => deadlockCheck env l1
  | r => r

/-! ## `onStageComplete` -/

/-- Line 194: `l.data["steps"].(map[string]any)[stepID].(map[string]any)[stage] = v`; `none`
is the panic of a failed type assertion. -/
def setStage (data : Value) (stepID stage : String) (v : Value) : Option Value :=
  match data with
  | Value.map top =>
    match mapGet top (Key.str "steps") with
    | some (Value.map steps) =>
      match mapGet steps (Key.str stepID) with
      | some (Value.map stages) =>
        some (Value.map (mapSet top (Key.str "steps")
          (Value.map (mapSet steps (Key.str stepID)
            (Value.map (mapSet stages (Key.str stage) v))))))
      | _ => none
    | _ => none
  | _ => none

/-- Line 195: the write of `output` below the stage map of line 194. -/
def setStageOutput (data : Value) (stepID stage outputID : String) (output : Value) :
    Option Value :=
  match data with
  | Value.map top =>
    match mapGet top (Key.str "steps") with
    | some (Value.map steps) =>
      match mapGet steps (Key.str stepID) with
      | some (Value.map stages) =>
        match mapGet stages (Key.str stage) with
        | some (Value.map outputs) =>
          setStage data stepID stage (Value.map (mapSet outputs (Key.str outputID) output))
        | _ => none
      | _ => none
    | _ => none
  | _ => none

/-- Lines 194 and 195 together; the pointer `previousStageOutput` is dereferenced after the
write of line 194. -/
def storeOutput (l : loopState) (stepID stage outputID : String)
    (previousStageOutput : Option Value) : PassResult :=
  match setStage l.data stepID stage (Value.map []) with
  | none => PassResult.panicked l (Error.runtime "interface conversion: not map[string]any")
  | some data1 =>
    match previousStageOutput with
    | none => PassResult.panicked { l with data := data1 }
        (Error.runtime "nil pointer dereference")
    | some output =>
      match setStageOutput data1 stepID stage outputID output with
      | none => PassResult.panicked { l with data := data1 }
          (Error.runtime "interface conversion: not map[string]any")
      | some data2 => PassResult.completed { l with data := data2 }

/-- Lines 180 to 196: the branch `previousStageOutputID != nil`, on the state from which the
stage node is removed. -/
def removeOutput (env : Env) (l : loopState) (stepID previousStage outputID : String)
    (previousStageOutput : Option Value) : PassResult :=
  match l.dag.GetNodeByID (env.GetOutputNodeID stepID previousStage outputID) with
  | Except.error err =>
    PassResult.returned
      (l.fail (Error.getOutputNode (env.GetStageNodeID stepID previousStage) err))
  | Except.ok outputNode =>
    match l.dag.Remove outputNode.ID with
    | Except.error err =>
      PassResult.returned (l.fail (Error.removeOutputNode outputNode.ID err))
    | Except.ok dag1 =>
      storeOutput { l with dag := dag1 } stepID previousStage outputID previousStageOutput

/-- The function literal of lines 160 to 197, run under the lock. -/
def onStageCompleteLocked (env : Env) (l : loopState) (stepID : String)
    (previousStage previousStageOutputID : Option String)
    (previousStageOutput : Option Value) : PassResult :=
  match previousStage with
  | none => PassResult.returned l
  | some stage =>
    match l.dag.GetNodeByID (env.GetStageNodeID stepID stage) with
    | Except.error err =>
      PassResult.returned (l.fail (Error.getStageNode (env.GetStageNodeID stepID stage) err))
    | Except.ok stageNode =>
      match l.dag.Remove stageNode.ID with
      | Except.error err =>
        PassResult.returned (l.fail (Error.removeStageNode stageNode.ID err))
      | Except.ok dag1 =>
        match previousStageOutputID with
        | none => PassResult.completed { l with dag := dag1 }
        | some outputID =>
          removeOutput env { l with dag := dag1 } stepID stage outputID previousStageOutput

/-- The method `onStageComplete`: the locked part, then `notifySteps` however the locked
part returned; a panic of the locked part ends the call. -/
def onStageComplete (env : Env) (l : loopState) (stepID : String)
    (previousStage previousStageOutputID : Option String)
    (previousStageOutput : Option Value) : PassResult :=
  match onStageCompleteLocked env l stepID previousStage previousStageOutputID
      previousStageOutput with
  | PassResult.panicked l1 e => PassResult.panicked l1 e
  | r => notifySteps env r.state

/-! ## `Execute` -/

/-- The struct `executableWorkflow`.  `runnableSteps` holds the keys of the Go map in
iteration order, `lifecycles` the stage ids `Stages[i].ID` of each step; a step without an
entry has the zero lifecycle, which has no stage.  `logger`, `stepRunData` and
`internalDataModel` do not influence the control flow of `Execute`. -/
structure executableWorkflow where
  dag : DirectedGraph
  input : Schema
  workflowContext : WorkflowContext
  runnableSteps : List String
  lifecycles : List (String × List String)

/-- The expression `e.lifecycles[stepID].Stages`, as stage ids. -/
def executableWorkflow.stages (e : executableWorkflow) (stepID : String) : List String :=
  match e.lifecycles.find? (fun p => p.1 = stepID) with
  | some p => p.2
  | none => []

/-- A call that reaches the scheduler while `Execute` waits, with what the world answers
during it; `parentCancel` is the cancellation of the context passed to `Execute`. -/
inductive Callback where
  | onStageComplete (env : Env) (stepID : String)
      (previousStage previousStageOutputID : Option String)
      (previousStageOutput : Option Value)
  | parentCancel

/-- What the world outside `Execute` answers: `Start` of the runnable step and `Close` of the
running step stored under a step id, the answers during the first scheduler pass, the
callbacks that arrive while `Execute` waits, and the case `select` picks when both are
ready. -/
structure World where
  Start : String → Option Error
  Close : String → Option Error
  env : Env
  callbacks : List Callback
  selectOutputFirst : Bool

/-- How `Execute` ended: it returned `(outputData, err)`, it panicked, or it waits for ever. -/
inductive Outcome where
  | returned (outputData : Option Value) (err : Option Error)
  | panicked (e : Error)
  | blocked
deriving Repr

/-- The result of `Execute` and the calls it made. -/
structure Execution where
  outcome : Outcome
  trace : List Event

/-- Lines 54 to 68: the fresh loop state. -/
def newLoopState (e : executableWorkflow) (unserializedInput : Value) : loopState :=
  { data := Value.map [(Key.str "input", unserializedInput),
      (Key.str "steps", Value.map [])]
    dag := e.dag
    inputsNotified := []
    runningSteps := []
    outputDataChannel := []
    outputDone := false
    lastError := none
    cancelled := false
    workflowContext := e.workflowContext
    trace := [] }

/-- Lines 75 to 80: one iteration of the loop over the stages of a step; `none` is the panic
of a failed type assertion. -/
def placeholderStage (data : Value) (stepID stageID : String) : Option Value :=
  match data with
  | Value.map top =>
    match mapGet top (Key.str "steps") with
    | some (Value.map steps) =>
      let steps1 :=
        match mapGet steps (Key.str stepID) with
        | some _ => steps
        | none => mapSet steps (Key.str stepID) (Value.map [])
      match mapGet steps1 (Key.str stepID) with
      | some (Value.map stages) =>
        some (Value.map (mapSet top (Key.str "steps")
          (Value.map (mapSet steps1 (Key.str stepID)
            (Value.map (mapSet stages (Key.str stageID) (Value.map [])))))))
      | _ => none
    | _ => none
  | _ => none

/-- Lines 74 to 81: the loop over the stages of a step. -/
def placeholderStages (stepID : String) : Value → List String → Option Value
  | data, [] => some data
  | data, stageID :: rest =>
    match placeholderStage data stepID stageID with
    | some data1 => placeholderStages stepID data1 rest
    | none => none

/-- Line 82: `l.data["steps"].(map[string]any)[stepID] = stepDataModel`. -/
def setStepDataModel (data : Value) (stepID : String) (stepDataModel : Value) :
    Option Value :=
  match data with
  | Value.map top =>
    match mapGet top (Key.str "steps") with
    | some (Value.map steps) =>
      some (Value.map (mapSet top (Key.str "steps")
        (Value.map (mapSet steps (Key.str stepID) stepDataModel))))
    | _ => none
  | _ => none

/-- Lines 73 to 82: the data-model part of one iteration of the launch loop.
`stepDataModel` is the map created in line 73, which nothing writes to before line 82. -/
def setUpStepData (e : executableWorkflow) (data : Value) (stepID : String) : Option Value :=
  let stepDataModel := Value.map []
  match placeholderStages stepID data (e.stages stepID) with
  | some data1 => setStepDataModel data1 stepID stepDataModel
  | none => none

/-- Result of the launch loop: every step is launched, or the loop left `Execute` through
the `return` of line 101, or it panicked. -/
inductive LaunchResult where
  | launched (l : loopState)
  | failed (l : loopState) (err : Error)
  | panicked (l : loopState) (e : Error)

/-- Lines 70 to 104: the launch loop over the remaining steps. -/
def launchSteps (e : executableWorkflow) (w : World) : loopState → List String → LaunchResult
  | l, [] => LaunchResult.launched l
  | l, stepID :: rest =>
    match setUpStepData e l.data stepID with
    | none => LaunchResult.panicked l (Error.runtime "interface conversion: not map[string]any")
    | some data1 =>
      let l1 := { l with data := data1, trace := l.trace ++ [Event.start stepID] }
      match w.Start stepID with
      | some err => LaunchResult.failed l1 (Error.launchFailed stepID err)
      | none => launchSteps e w { l1 with runningSteps := l1.runningSteps ++ [stepID] } rest

/-- Lines 106 to 114: the deferred function over the remaining running steps; it gives the
trace and the panic of a failed `Close`. -/
def closeSteps (w : World) : List Event → List String → List Event × Option Error
  | trace, [] => (trace, none)
  | trace, stepID :: rest =>
    match w.Close stepID with
    | some err => (trace ++ [Event.close stepID], some (Error.closeFailed stepID err))
    | none => closeSteps w (trace ++ [Event.close stepID]) rest

/-- End of `Execute` once the deferred function of line 106 is registered: the running steps
are closed, whether `Execute` returns or panics, and then the deferred `cancel` of line 52
runs. -/
def finish (w : World) (l : loopState) (outcome : Outcome) : Execution :=
  match closeSteps w l.trace l.runningSteps with
  | (trace, some e) => { outcome := Outcome.panicked e, trace := trace ++ [Event.cancel] }
  | (trace, none) => { outcome := outcome, trace := trace ++ [Event.cancel] }

/-- Lines 129 to 142: the `select`, with the callbacks that arrive while it waits.  A panic
in a callback happens on the goroutine of the step: no deferred function of `Execute`
runs. -/
def waitForResult (w : World) : loopState → List Callback → Execution
  | l, callbacks =>
    let fromChannel : Option Execution :=
      match l.outputDataChannel with
      | outputData :: _ => some (finish w l (Outcome.returned (some outputData) none))
      | [] => none
    let fromContext : Option Execution :=
      if l.cancelled then
        match l.lastError with
        | some err => some (finish w l (Outcome.returned none (some err)))
        | none => some (finish w l (Outcome.returned none (some Error.aborted)))
      else none
    match fromChannel, fromContext, callbacks with
    | some r, none, _ => r
    | none, some r, _ => r
    | some r1, some r2, _ => if w.selectOutputFirst then r1 else r2
    | none, none, [] => { outcome := Outcome.blocked, trace := l.trace }
    | none, none, Callback.parentCancel :: rest =>
      waitForResult w { l with cancelled := true } rest
    | none, none, Callback.onStageComplete env stepID prev outputID output :: rest =>
      match onStageComplete env l stepID prev outputID output with
      | PassResult.panicked l1 e => { outcome := Outcome.panicked e, trace := l1.trace }
      | r => waitForResult w r.state rest

/-- The method `Execute`.  Until line 106 the only deferred function is the `cancel` of
line 52; a `return` or panic before line 106 runs nothing else. -/
def Execute (e : executableWorkflow) (w : World) (input : Value) : Execution :=
  match e.input.Unserialize input with
  | Except.error err =>
    { outcome := Outcome.returned none (some (Error.invalidInput err)), trace := [] }
  | Except.ok unserializedInput =>
    match launchSteps e w (newLoopState e unserializedInput) e.runnableSteps with
    | LaunchResult.panicked l err =>
      { outcome := Outcome.panicked err, trace := l.trace ++ [Event.cancel] }
    | LaunchResult.failed l err =>
      { outcome := Outcome.returned none (some err), trace := l.trace ++ [Event.cancel] }
    | LaunchResult.launched l =>
      match l.dag.GetNodeByID "input" with
      | Except.error err =>
        finish w l (Outcome.returned none (some (Error.inputNodeMissing err)))
      | Except.ok inputNode =>
        match l.dag.Remove inputNode.ID with
        | Except.error err =>
          finish w l (Outcome.returned none (some (Error.inputNodeRemove err)))
        | Except.ok dag1 =>
          match notifySteps w.env { l with dag := dag1 } with
          | PassResult.panicked l1 err => finish w l1 (Outcome.panicked err)
          | r => waitForResult w r.state w.callbacks

/-! ## Sequences of scheduler calls and what they dispatch -/

/-- A call on the loop state, with what the world answers during it. -/
inductive Call where
  | notify (env : Env)
  | stageComplete (env : Env) (stepID : String)
      (previousStage previousStageOutputID : Option String)
      (previousStageOutput : Option Value)

/-- One call: `notifySteps` or `onStageComplete`. -/
def Call.run (l : loopState) : Call → PassResult
  | Call.notify env => notifySteps env l
  | Call.stageComplete env stepID prev outputID output =>
    onStageComplete env l stepID prev outputID output

/-- A sequence of calls on one loop state, each under the lock; a panic ends the
sequence. -/
def runCalls : loopState → List Call → PassResult
  | l, [] => PassResult.completed l
  | l, c :: rest =>
    match c.run l with
    | PassResult.panicked l1 e => PassResult.panicked l1 e
    | r => runCalls r.state rest

/-- Whether an event is the dispatch of DAG node `id`: a `ProvideStageInput` call or a send
on the output channel made for that node. -/
def Event.dispatches (id : String) : Event → Bool
  | Event.provide nodeID _ _ _ => decide (nodeID = id)
  | Event.send nodeID _ => decide (nodeID = id)
  | _ => false

/-- Whether an event is a `ProvideStageInput` call made for DAG node `id`. -/
def Event.isProvide (id : String) : Event → Bool
  | Event.provide nodeID _ _ _ => decide (nodeID = id)
  | _ => false

/-- Whether an event is a send on the output channel. -/
def Event.isSend : Event → Bool
  | Event.send _ _ => true
  | _ => false

/-- Whether an event is the `Errorf` of the deadlock error. -/
def Event.isDeadlock : Event → Bool
  | Event.errorf (Error.deadlock _) => true
  | _ => false

/-- Number of dispatches of node `id` in a trace. -/
def dispatchCount (id : String) (trace : List Event) : Nat :=
  trace.countP (Event.dispatches id)

/-- Number of `ProvideStageInput` calls for node `id` in a trace. -/
def provideCount (id : String) (trace : List Event) : Nat :=
  trace.countP (Event.isProvide id)

/-- Number of sends on the output channel in a trace. -/
def sendCount (trace : List Event) : Nat :=
  trace.countP Event.isSend

/-- Value below a path of string keys, `none` when the path leaves the tree. -/
def getPath : Value → List String → Option Value
  | v, [] => some v
  | Value.map kvs, k :: rest =>
    match mapGet kvs (Key.str k) with
    | some v => getPath v rest
    | none => none
  | _, _ :: _ => none

/-! ## Statement of the resolver contract -/

mutual
/-- Expression leaves of a value tree, left to right. -/
def exprLeaves : Value → List String
  | Value.expr e => [e]
  | Value.slice xs => exprLeavesSlice xs
  | Value.map kvs => exprLeavesMap kvs
  | Value.scalar _ => []
/-- Expression leaves below the elements of a sequence. -/
def exprLeavesSlice : List Value → List String
  | [] => []
  | x :: rest => exprLeaves x ++ exprLeavesSlice rest
/-- Expression leaves below the values of a mapping; keys are not looked at. -/
def exprLeavesMap : List (Key × Value) → List String
  | [] => []
  | (_, x) :: rest => exprLeaves x ++ exprLeavesMap rest
end

mutual
/-- The tree the spec describes as the output of the resolver: the same tree with every
expression leaf `e` replaced by `result e`; keys, lengths, order and other leaves stay. -/
def replaceExpressionLeaves (result : String → Value) : Value → Value
  | Value.expr e => result e
  | Value.slice xs => Value.slice (replaceInSlice result xs)
  | Value.map kvs => Value.map (replaceInMap result kvs)
  | Value.scalar s => Value.scalar s
/-- Replacement in each element of a sequence. -/
def replaceInSlice (result : String → Value) : List Value → List Value
  | [] => []
  | x :: rest => replaceExpressionLeaves result x :: replaceInSlice result rest
/-- Replacement in each value of a mapping, under the same key. -/
def replaceInMap (result : String → Value) : List (Key × Value) → List (Key × Value)
  | [] => []
  | (k, x) :: rest => (k, replaceExpressionLeaves result x) :: replaceInMap result rest
end

/-! ## Relations between loop states used in the proofs -/

/-- Accounting of dispatches between two loop states of one execution. -/
structure Extends (l l' : loopState) : Prop where
  notified : l.inputsNotified ⊆ l'.inputsNotified
  nodes : l'.dag.nodes ⊆ l.dag.nodes
  mono : ∀ id, dispatchCount id l.trace ≤ dispatchCount id l'.trace
  once : ∀ id, dispatchCount id l'.trace ≤ dispatchCount id l.trace + 1
  fresh : ∀ id, dispatchCount id l.trace < dispatchCount id l'.trace →
    id ∉ l.inputsNotified ∧ id ∈ l'.inputsNotified
  provides : ∀ id, provideCount id l'.trace + dispatchCount id l.trace
    ≤ provideCount id l.trace + dispatchCount id l'.trace
  sends : (∀ n ∈ l.dag.nodes, n.Item.Kind = DAGItemKindOutput → n.ID = "output") →
    sendCount l'.trace + dispatchCount "output" l.trace
      ≤ sendCount l.trace + dispatchCount "output" l'.trace

/-- What no scheduler pass writes to: the DAG, the data model, the running steps and the
workflow context. -/
def SameFrame (l l' : loopState) : Prop :=
  l'.dag = l.dag ∧ l'.data = l.data ∧ l'.runningSteps = l.runningSteps
    ∧ l'.workflowContext = l.workflowContext

/-- What a part of the dispatch loop that visits the nodes `ids` may do to the loop state: it
appends calls other than the deadlock report, never resets `outputDone`, marks only
visited nodes as notified and removes no mark. -/
structure LoopStep (l l' : loopState) (ids : List String) : Prop where
  appended : ∃ new : List Event, l'.trace = l.trace ++ new
    ∧ List.countP Event.isDeadlock new = 0
  done : l.outputDone = true → l'.outputDone = true
  bound : ∀ id ∈ l'.inputsNotified, id ∈ l.inputsNotified ∨ id ∈ ids
  grows : l.inputsNotified ⊆ l'.inputsNotified

/-! ## Scenarios used to evaluate the definitions -/

/-- Schema that accepts every value. -/
def acceptAll : Schema := ⟨fun v => Except.ok v⟩

/-- Schema that rejects every value. -/
def rejectAll : Schema := ⟨fun _ => Except.error (Error.external "invalid")⟩

/-- World in which the expression `input.x` evaluates to 7 and no other expression
evaluates, every step is in the state given by `state`, `ProvideStageInput` succeeds, and
node ids are dotted paths. -/
def scenarioEnv (state : String → RunningStepState) : Env :=
  { Evaluate := fun e _ _ =>
      if e = "input.x" then Except.ok (Value.scalar (Scalar.int 7))
      else Except.error (Error.external "no such value")
    EvaluatesToAnyKeyedMap := fun _ _ _ => false
    State := state
    ProvideStageInput := fun _ _ _ => none
    GetStageNodeID := fun stepID stageID => "steps." ++ stepID ++ "." ++ stageID
    GetOutputNodeID := fun stepID stageID outputID =>
      "steps." ++ stepID ++ "." ++ stageID ++ "." ++ outputID }

/-- Step-stage node with the given id, input template and schema. -/
def stageNode (id stepID stageID : String) (input : Value) (inputSchema : Option Schema) :
    Node :=
  ⟨id, ⟨DAGItemKindStepStage, stepID, stageID, input, inputSchema⟩⟩

/-- Stage-output marker node: no input template, no schema. -/
def markerNode (id : String) : Node :=
  ⟨id, ⟨DAGItemKindStepStageOutput, "", "", Value.scalar Scalar.null, none⟩⟩

/-- The node `output` with the given output template. -/
def workflowOutputNode (input : Value) : Node :=
  ⟨"output", ⟨DAGItemKindOutput, "", "", input, none⟩⟩

/-- Loop state as `Execute` builds it for the given DAG and launched steps, before the first
pass. -/
def scenarioState (dag : DirectedGraph) (runningSteps : List String) : loopState :=
  { data := Value.map [(Key.str "input", Value.map []),
      (Key.str "steps", Value.map (runningSteps.map (fun s => (Key.str s, Value.map []))))]
    dag := dag
    inputsNotified := []
    runningSteps := runningSteps
    outputDataChannel := []
    outputDone := false
    lastError := none
    cancelled := false
    workflowContext := []
    trace := [] }

/-- Input template `x: 1`. -/
def plainInput : Value := Value.map [(Key.str "x", Value.scalar (Scalar.int 1))]

/-- One ready stage node of step `a` that has an input template but no schema. -/
def scenarioNoSchema : loopState :=
  scenarioState ⟨[stageNode "steps.a.exec" "a" "exec" plainInput none], []⟩ ["a"]

/-- Steps `a` (waiting for input) and `b` (finished); `output` waits for a stage output of
`a` that never occurs. -/
def scenarioFinishedStep : loopState :=
  scenarioState ⟨[workflowOutputNode (Value.expr "input.x"), markerNode "steps.a.exec.done"],
    [("steps.a.exec.done", "output")]⟩ ["a", "b"]

/-- State of the steps of `scenarioFinishedStep`. -/
def finishedStepStates : String → RunningStepState :=
  fun stepID =>
    if stepID = "a" then RunningStepStateWaitingForInput else RunningStepStateFinished

/-- Two ready stage nodes: the schema of `a` rejects its input, the schema of `b` accepts. -/
def scenarioRejected : loopState :=
  scenarioState ⟨[stageNode "steps.a.exec" "a" "exec" plainInput (some rejectAll),
    stageNode "steps.b.exec" "b" "exec" plainInput (some acceptAll)], []⟩ ["a", "b"]

/-- A ready stage node whose schema rejects its input, and the ready node `output`. -/
def scenarioRejectedThenOutput : loopState :=
  scenarioState ⟨[stageNode "steps.a.exec" "a" "exec" plainInput (some rejectAll),
    workflowOutputNode (Value.expr "input.x")], []⟩ ["a"]

/-- One ready stage node of step `a` with an accepting schema; `output` waits for its
stage output `done`. -/
def scenarioStraightLine : loopState :=
  scenarioState ⟨[stageNode "steps.a.exec" "a" "exec" plainInput (some acceptAll),
    markerNode "steps.a.exec.done", markerNode "steps.a.exec.failed",
    workflowOutputNode (Value.expr "input.x")],
    [("steps.a.exec", "steps.a.exec.done"), ("steps.a.exec", "steps.a.exec.failed"),
      ("steps.a.exec.done", "output")]⟩ ["a"]

/-- Template of scenario S6: a mapping whose value is a sequence of expressions and
scalars; and one more entry whose key is an expression that does not evaluate. -/
def nestedTemplate : Value :=
  Value.map [(Key.str "list",
    Value.slice [Value.expr "input.x", Value.scalar (Scalar.int 42), Value.expr "input.x"]),
    (Key.expr "input.y", Value.scalar (Scalar.bool true))]

/-- World of the scenarios in which every step is running. -/
def runningEnv : Env := scenarioEnv (fun _ => RunningStepStateRunning)

/-- World of the scenarios in which every step waits for input. -/
def waitingEnv : Env := scenarioEnv (fun _ => RunningStepStateWaitingForInput)

/-- Output `msg: hello` of stage `exec` of step `a`. -/
def helloOutput : Value := Value.map [(Key.str "msg", Value.scalar (Scalar.str "hello"))]

/-- Calls of scenario S1: the first pass, then the completion of stage `exec` of step `a`
with output `done`, then one more pass. -/
def straightLineCalls : List Call :=
  [Call.notify runningEnv,
    Call.stageComplete runningEnv "a" (some "exec") (some "done") (some helloOutput),
    Call.notify runningEnv]

/-- Loop state carried by the result of the launch loop. -/
def LaunchResult.state : LaunchResult → loopState
  | LaunchResult.launched l => l
  | LaunchResult.failed l _ => l
  | LaunchResult.panicked l _ => l

/-- Compiled workflow with steps `a` and `b`, each with the single stage `exec`. -/
def twoStepWorkflow : executableWorkflow :=
  { dag := ⟨[markerNode "input",
      stageNode "steps.a.exec" "a" "exec" plainInput (some acceptAll),
      stageNode "steps.b.exec" "b" "exec" plainInput (some acceptAll),
      workflowOutputNode (Value.expr "input.x")],
      [("input", "steps.a.exec"), ("input", "steps.b.exec"), ("steps.a.exec", "output"),
        ("steps.b.exec", "output")]⟩
    input := acceptAll
    workflowContext := []
    runnableSteps := ["a", "b"]
    lifecycles := [("a", ["exec"]), ("b", ["exec"])] }

/-- World in which step `a` starts and the start of step `b` fails. -/
def secondStartFails : World :=
  { Start := fun stepID =>
      if stepID = "b" then some (Error.external "cannot start") else none
    Close := fun _ => none
    env := runningEnv
    callbacks := []
    selectOutputFirst := true }

/-- World in which every step starts and closes. -/
def allStart : World :=
  { Start := fun _ => none
    Close := fun _ => none
    env := runningEnv
    callbacks := []
    selectOutputFirst := true }

/-! ## Invariants of the loop state -/

/-- Whether a call ended in a panic. -/
def PassResult.isPanicked : PassResult → Bool
  | PassResult.panicked _ _ => true
  | _ => false

/-- The node `output`, where the DAG holds it, is a workflow-output node with an input
template, as the compiled workflow builds it. -/
def OutputNodeWellFormed (d : DirectedGraph) : Prop :=
  ∀ n ∈ d.nodes, n.ID = "output" →
    n.Item.Kind = DAGItemKindOutput ∧ n.Item.Input.isNil = false

/-- The node `output` is marked notified only when the output was produced. -/
def OutputInvariant (l : loopState) : Prop :=
  "output" ∈ l.inputsNotified → l.outputDone = true

/-- The data model holds a mapping at `steps.<stepID>` for every running step. -/
def StepMapsInvariant (l : loopState) : Prop :=
  ∀ stepID ∈ l.runningSteps, ∃ stages, getPath l.data ["steps", stepID] = some (Value.map stages)

/-- World of scenario S2 without the step `A`: both steps start, each completes its stage
`exec`, and every step closes. -/
def bothComplete : World :=
  { Start := fun _ => none
    Close := fun _ => none
    env := runningEnv
    callbacks :=
      [Callback.onStageComplete runningEnv "a" (some "exec") none none,
        Callback.onStageComplete runningEnv "b" (some "exec") none none]
    selectOutputFirst := true }

/-- Whether an event is the `Close` call of the running step of `stepID`. -/
def Event.isClose (stepID : String) : Event → Bool
  | Event.close s => decide (s = stepID)
  | _ => false

/-- World in which the expression `input` evaluates to the map `x: 1`, of dynamic type
`map[any]any` when `anyKeyed` is true and of another map type (such as `map[string]any`)
otherwise. -/
def wholeTemplateEnv (anyKeyed : Bool) : Env :=
  { Evaluate := fun e _ _ =>
      if e = "input" then Except.ok plainInput
      else Except.error (Error.external "no such value")
    EvaluatesToAnyKeyedMap := fun _ _ _ => anyKeyed
    State := fun _ => RunningStepStateRunning
    ProvideStageInput := fun _ _ _ => none
    GetStageNodeID := fun stepID stageID => "steps." ++ stepID ++ "." ++ stageID
    GetOutputNodeID := fun stepID stageID outputID =>
      "steps." ++ stepID ++ "." ++ stageID ++ "." ++ outputID }

/-- One ready stage node of step `a` whose whole input template is the expression
`input`. -/
def scenarioWholeTemplate : loopState :=
  scenarioState ⟨[stageNode "steps.a.exec" "a" "exec" (Value.expr "input") (some acceptAll)],
    []⟩ ["a"]

/-! # Theorems -/

/-! ## Resolver: proofs -/

mutual
theorem resolveExpressions_eq_replace (env : Env) (ctx : WorkflowContext) (dm : Value)
    (result : String → Value) :
    ∀ t : Value, (∀ e ∈ exprLeaves t, env.Evaluate e dm ctx = Except.ok (result e)) →
      resolveExpressions env ctx dm t = Except.ok (replaceExpressionLeaves result t)
  | Value.expr e, h => by
    simp only [resolveExpressions, replaceExpressionLeaves]
    exact h e (by simp [exprLeaves])
  | Value.slice xs, h => by
    have ih := resolveSlice_eq_replace env ctx dm result xs (by simpa [exprLeaves] using h)
    simp only [resolveExpressions, replaceExpressionLeaves, ih]
  | Value.map kvs, h => by
    have ih := resolveMap_eq_replace env ctx dm result kvs (by simpa [exprLeaves] using h)
    simp only [resolveExpressions, replaceExpressionLeaves, ih]
  | Value.scalar s, _ => by
    simp only [resolveExpressions, replaceExpressionLeaves]
theorem resolveSlice_eq_replace (env : Env) (ctx : WorkflowContext) (dm : Value)
    (result : String → Value) :
    ∀ xs : List Value,
      (∀ e ∈ exprLeavesSlice xs, env.Evaluate e dm ctx = Except.ok (result e)) →
      resolveSlice env ctx dm xs = Except.ok (replaceInSlice result xs)
  | [], _ => by simp only [resolveSlice, replaceInSlice]
  | x :: rest, h => by
    have h1 := resolveExpressions_eq_replace env ctx dm result x
      (fun e he => h e (by simp [exprLeavesSlice, he]))
    have h2 := resolveSlice_eq_replace env ctx dm result rest
      (fun e he => h e (by simp [exprLeavesSlice, he]))
    simp only [resolveSlice, replaceInSlice, h1, h2]
theorem resolveMap_eq_replace (env : Env) (ctx : WorkflowContext) (dm : Value)
    (result : String → Value) :
    ∀ kvs : List (Key × Value),
      (∀ e ∈ exprLeavesMap kvs, env.Evaluate e dm ctx = Except.ok (result e)) →
      resolveMap env ctx dm kvs = Except.ok (replaceInMap result kvs)
  | [], _ => by simp only [resolveMap, replaceInMap]
  | (k, x) :: rest, h => by
    have h1 := resolveExpressions_eq_replace env ctx dm result x
      (fun e he => h e (by simp [exprLeavesMap, he]))
    have h2 := resolveMap_eq_replace env ctx dm result rest
      (fun e he => h e (by simp [exprLeavesMap, he]))
    simp only [resolveMap, replaceInMap, h1, h2]
end

mutual
theorem replace_of_exprFree (result : String → Value) :
    ∀ t : Value, exprLeaves t = [] → replaceExpressionLeaves result t = t
  | Value.expr e, h => by simp [exprLeaves] at h
  | Value.slice xs, h => by
    simp only [replaceExpressionLeaves]
    rw [replaceInSlice_of_exprFree result xs (by simpa [exprLeaves] using h)]
  | Value.map kvs, h => by
    simp only [replaceExpressionLeaves]
    rw [replaceInMap_of_exprFree result kvs (by simpa [exprLeaves] using h)]
  | Value.scalar s, _ => by simp only [replaceExpressionLeaves]
theorem replaceInSlice_of_exprFree (result : String → Value) :
    ∀ xs : List Value, exprLeavesSlice xs = [] → replaceInSlice result xs = xs
  | [], _ => by simp only [replaceInSlice]
  | x :: rest, h => by
    simp only [exprLeavesSlice, List.append_eq_nil] at h
    simp only [replaceInSlice, replace_of_exprFree result x h.1,
      replaceInSlice_of_exprFree result rest h.2]
theorem replaceInMap_of_exprFree (result : String → Value) :
    ∀ kvs : List (Key × Value), exprLeavesMap kvs = [] → replaceInMap result kvs = kvs
  | [], _ => by simp only [replaceInMap]
  | (k, x) :: rest, h => by
    simp only [exprLeavesMap, List.append_eq_nil] at h
    simp only [replaceInMap, replace_of_exprFree result x h.1,
      replaceInMap_of_exprFree result rest h.2]
end

/-- Claim C2: when every expression leaf of a value tree evaluates without error on the data
model (to `result e`), `resolveExpressions` returns the tree of the same shape in which each
expression leaf is replaced by its evaluation result and everything else (mapping keys,
sequence lengths and order, other leaves) is unchanged; and a tree without expression leaves
is returned unchanged. -/
theorem resolveExpressions_contract (env : Env) (ctx : WorkflowContext) (dataModel : Value)
    (result : String → Value) (t : Value)
    (h : ∀ e ∈ exprLeaves t, env.Evaluate e dataModel ctx = Except.ok (result e)) :
    resolveExpressions env ctx dataModel t = Except.ok (replaceExpressionLeaves result t)
      ∧ (exprLeaves t = [] → resolveExpressions env ctx dataModel t = Except.ok t) := by
  refine ⟨resolveExpressions_eq_replace env ctx dataModel result t h, fun hfree => ?_⟩
  rw [resolveExpressions_eq_replace env ctx dataModel result t h,
    replace_of_exprFree result t hfree]

theorem Extends.nothing (l : loopState) : Extends l l :=
  ⟨fun _ h => h, fun _ h => h, fun _ => le_rfl, fun _ => Nat.le_succ _,
    fun _ h => absurd h (lt_irrefl _), fun _ => le_rfl, fun _ => le_rfl⟩

theorem Extends.andThen {l l1 l2 : loopState} (h1 : Extends l l1) (h2 : Extends l1 l2) :
    Extends l l2 := by
  refine ⟨fun _ h => h2.notified (h1.notified h), fun _ h => h1.nodes (h2.nodes h),
    fun id => le_trans (h1.mono id) (h2.mono id), fun id => ?_, fun id hlt => ?_,
    fun id => ?_, fun hout => ?_⟩
  · by_cases hc : dispatchCount id l.trace < dispatchCount id l1.trace
    · have hin := (h1.fresh id hc).2
      by_cases hc2 : dispatchCount id l1.trace < dispatchCount id l2.trace
      · exact absurd hin (h2.fresh id hc2).1
      · have := h1.once id; omega
    · have := h2.once id; omega
  · by_cases hc : dispatchCount id l.trace < dispatchCount id l1.trace
    · exact ⟨(h1.fresh id hc).1, h2.notified (h1.fresh id hc).2⟩
    · have hc2 : dispatchCount id l1.trace < dispatchCount id l2.trace := by omega
      exact ⟨fun hin => (h2.fresh id hc2).1 (h1.notified hin), (h2.fresh id hc2).2⟩
  · have := h1.provides id; have := h2.provides id; omega
  · have := h1.sends hout
    have := h2.sends (fun n hn => hout n (h1.nodes hn))
    omega

theorem Extends.failed {l l1 : loopState} (h : Extends l l1) (e : Error) :
    Extends l (l1.fail e) := by
  have ht : ∀ p : Event → Bool, p (Event.errorf e) = false → p Event.cancel = false →
      List.countP p (l1.fail e).trace = List.countP p l1.trace := by
    intro p h1 h2
    simp [loopState.fail, List.countP_append, List.countP_cons, h1, h2]
  have hd : ∀ id, dispatchCount id (l1.fail e).trace = dispatchCount id l1.trace :=
    fun id => ht _ rfl rfl
  have hp : ∀ id, provideCount id (l1.fail e).trace = provideCount id l1.trace :=
    fun id => ht _ rfl rfl
  have hs : sendCount (l1.fail e).trace = sendCount l1.trace := ht _ rfl rfl
  refine ⟨h.notified, h.nodes, fun id => ?_, fun id => ?_, fun id => ?_, fun id => ?_,
    fun hout => ?_⟩
  · rw [hd]; exact h.mono id
  · rw [hd]; exact h.once id
  · rw [hd]; exact h.fresh id
  · rw [hd, hp]; exact h.provides id
  · rw [hd, hs]; exact h.sends hout

/-- Marking a node as notified, without any call. -/
theorem Extends.marked (l : loopState) (id : String) :
    Extends l { l with inputsNotified := l.inputsNotified ++ [id] } :=
  ⟨fun _ h => List.mem_append_left _ h, fun _ h => h, fun _ => le_rfl, fun _ => Nat.le_succ _,
    fun _ h => absurd h (lt_irrefl _), fun _ => le_rfl, fun _ => le_rfl⟩

theorem provideInput_extends (env : Env) (l0 l : loopState) (node : Node) (v : Value)
    (anyKeyed : Bool)
    (hnot : node.ID ∉ l0.inputsNotified)
    (hl : l = { l0 with inputsNotified := l0.inputsNotified ++ [node.ID] }) :
    Extends l0 (provideInput env l node v anyKeyed).state := by
  subst hl
  have hmark := Extends.marked l0 node.ID
  have hprov : ∀ typed, Extends l0 { l0 with
      inputsNotified := l0.inputsNotified ++ [node.ID]
      trace := l0.trace ++ [Event.provide node.ID node.Item.StepID node.Item.StageID typed] } := by
    intro typed
    refine ⟨fun _ h => List.mem_append_left _ h, fun _ h => h, fun id => ?_, fun id => ?_,
      fun id hlt => ?_, fun id => ?_, fun _ => ?_⟩
    · simp [dispatchCount, List.countP_append]
    · simp only [dispatchCount, List.countP_append, List.countP_cons, List.countP_nil]
      split <;> omega
    · simp only [dispatchCount, List.countP_append, List.countP_cons, List.countP_nil,
        Event.dispatches] at hlt
      by_cases hid : node.ID = id
      · subst hid; exact ⟨hnot, by simp⟩
      · simp [hid] at hlt
    · simp only [dispatchCount, provideCount, List.countP_append, List.countP_cons,
        List.countP_nil, Event.dispatches, Event.isProvide]
      omega
    · simp [dispatchCount, sendCount, List.countP_append, Event.isSend]
  unfold provideInput
  split
  · split
    · split
      · exact hmark
      · split
        · split
          · exact (hprov _).failed _
          · exact hprov _
        · exact hmark
    · exact hmark
  · exact hmark

theorem dispatch_extends (env : Env) (l0 l : loopState) (node : Node) (v : Value)
    (anyKeyed : Bool)
    (hn : node ∈ l0.dag.nodes) (hnot : node.ID ∉ l0.inputsNotified)
    (hl : l = { l0 with inputsNotified := l0.inputsNotified ++ [node.ID] }) :
    Extends l0 (dispatch env l node v anyKeyed).state := by
  have hmark : Extends l0 l := hl ▸ Extends.marked l0 node.ID
  unfold dispatch
  split
  · split
    · exact hmark
    · split
      · exact hmark.failed _
      · exact provideInput_extends env l0 l node v anyKeyed hnot hl
  · rename_i hkind
    subst hl
    refine ⟨fun _ h => List.mem_append_left _ h, fun _ h => h, fun id => ?_, fun id => ?_,
      fun id hlt => ?_, fun id => ?_, fun hout => ?_⟩
    · simp [PassResult.state, dispatchCount, List.countP_append]
    · simp only [PassResult.state, dispatchCount, List.countP_append, List.countP_cons,
        List.countP_nil]
      split <;> omega
    · simp only [PassResult.state, dispatchCount, List.countP_append, List.countP_cons,
        List.countP_nil, Event.dispatches] at hlt
      by_cases hid : node.ID = id
      · subst hid; exact ⟨hnot, by simp [PassResult.state]⟩
      · simp [hid] at hlt
    · simp [PassResult.state, dispatchCount, provideCount, List.countP_append,
        Event.isProvide]
    · have hID : node.ID = "output" := hout node hn hkind
      simp only [PassResult.state, dispatchCount, sendCount, List.countP_append,
        List.countP_cons, List.countP_nil, Event.dispatches, Event.isSend, hID]
      simp
      omega
  · exact hmark

theorem notifyNode_extends (env : Env) (l : loopState) (node : Node)
    (hn : node ∈ l.dag.nodes) : Extends l (notifyNode env l node).state := by
  unfold notifyNode
  split
  · exact Extends.nothing l
  · rename_i hnot
    simp only []
    split
    · exact Extends.marked l node.ID
    · split
      · exact Extends.marked l node.ID
      · exact dispatch_extends env l _ node _ _ hn hnot rfl

theorem SameFrame.same (l : loopState) : SameFrame l l := ⟨rfl, rfl, rfl, rfl⟩

theorem SameFrame.compose {l l1 l2 : loopState} (h1 : SameFrame l l1) (h2 : SameFrame l1 l2) :
    SameFrame l l2 :=
  ⟨h2.1.trans h1.1, h2.2.1.trans h1.2.1, h2.2.2.1.trans h1.2.2.1, h2.2.2.2.trans h1.2.2.2⟩

theorem SameFrame.ofFail {l l1 : loopState} (h : SameFrame l l1) (e : Error) :
    SameFrame l (l1.fail e) := h

theorem provideInput_frame (env : Env) (l : loopState) (node : Node) (v : Value)
    (anyKeyed : Bool) :
    SameFrame l (provideInput env l node v anyKeyed).state := by
  unfold provideInput
  repeat' split
  all_goals exact ⟨rfl, rfl, rfl, rfl⟩

theorem dispatch_frame (env : Env) (l : loopState) (node : Node) (v : Value)
    (anyKeyed : Bool) :
    SameFrame l (dispatch env l node v anyKeyed).state := by
  unfold dispatch
  split
  · split
    · exact SameFrame.same l
    · split
      · exact ⟨rfl, rfl, rfl, rfl⟩
      · exact provideInput_frame env l node v anyKeyed
  · exact ⟨rfl, rfl, rfl, rfl⟩
  · exact SameFrame.same l

theorem notifyNode_frame (env : Env) (l : loopState) (node : Node) :
    SameFrame l (notifyNode env l node).state := by
  unfold notifyNode
  split
  · exact SameFrame.same l
  · simp only []
    split
    · exact ⟨rfl, rfl, rfl, rfl⟩
    · split
      · exact ⟨rfl, rfl, rfl, rfl⟩
      · exact SameFrame.compose
          (show SameFrame l { l with inputsNotified := l.inputsNotified ++ [node.ID] } from
            ⟨rfl, rfl, rfl, rfl⟩)
          (dispatch_frame env _ node _ _)

theorem notifyLoop_frame (env : Env) (nodes : List Node) :
    ∀ l : loopState, SameFrame l (notifyLoop env l nodes).state := by
  induction nodes with
  | nil => intro l; exact SameFrame.same l
  | cons node rest ih =>
    intro l
    have h1 := notifyNode_frame env l node
    unfold notifyLoop
    split
    · rename_i l1 heq
      rw [heq] at h1
      exact h1.compose (ih l1)
    · exact h1

theorem notifyLoop_extends (env : Env) (nodes : List Node) :
    ∀ l : loopState, (∀ n ∈ nodes, n ∈ l.dag.nodes) →
      Extends l (notifyLoop env l nodes).state := by
  induction nodes with
  | nil => intro l _; exact Extends.nothing l
  | cons node rest ih =>
    intro l hsub
    have h1 := notifyNode_extends env l node (hsub node (List.mem_cons_self _ _))
    have hf := notifyNode_frame env l node
    unfold notifyLoop
    split
    · rename_i l1 heq
      rw [heq] at h1 hf
      refine h1.andThen (ih l1 (fun n hn => ?_))
      have : l1.dag = l.dag := hf.1
      rw [this]
      exact hsub n (List.mem_cons_of_mem _ hn)
    · exact h1

theorem deadlockCheck_frame (env : Env) (l : loopState) :
    SameFrame l (deadlockCheck env l).state := by
  unfold deadlockCheck
  repeat' split
  all_goals exact ⟨rfl, rfl, rfl, rfl⟩

theorem deadlockCheck_extends (env : Env) (l : loopState) :
    Extends l (deadlockCheck env l).state := by
  unfold deadlockCheck
  split
  · split
    · exact Extends.nothing l
    · exact (Extends.nothing l).failed _
  · exact Extends.nothing l

theorem notifySteps_frame (env : Env) (l : loopState) :
    SameFrame l (notifySteps env l).state := by
  have h1 := notifyLoop_frame env l.dag.ListNodesWithoutInboundConnections l
  unfold notifySteps
  split
  · rename_i l1 heq
    rw [heq] at h1
    exact h1.compose (deadlockCheck_frame env l1)
  · exact h1

theorem notifySteps_extends (env : Env) (l : loopState) :
    Extends l (notifySteps env l).state := by
  have hsub : ∀ n ∈ l.dag.ListNodesWithoutInboundConnections, n ∈ l.dag.nodes :=
    fun n hn => List.mem_of_mem_filter hn
  have h1 := notifyLoop_extends env l.dag.ListNodesWithoutInboundConnections l hsub
  unfold notifySteps
  split
  · rename_i l1 heq
    rw [heq] at h1
    exact h1.andThen (deadlockCheck_extends env l1)
  · exact h1

theorem Remove_nodes {d d1 : DirectedGraph} {id : String}
    (h : d.Remove id = Except.ok d1) : d1.nodes = d.nodes.filter (fun n => n.ID ≠ id) := by
  unfold DirectedGraph.Remove at h
  split at h
  · cases h; rfl
  · cases h

/-- A change of DAG and data model that makes no call and keeps the notified set. -/
theorem Extends.quiet {l l1 : loopState} (hn : l1.inputsNotified = l.inputsNotified)
    (ht : l1.trace = l.trace) (hd : l1.dag.nodes ⊆ l.dag.nodes) : Extends l l1 := by
  refine ⟨by rw [hn]; exact fun _ h => h, hd, ?_, ?_, ?_, ?_, ?_⟩
  all_goals rw [ht]
  · exact fun _ => le_rfl
  · exact fun _ => Nat.le_succ _
  · exact fun _ h => absurd h (lt_irrefl _)
  · exact fun _ => le_rfl
  · exact fun _ => le_rfl

theorem storeOutput_extends (l0 l : loopState) (stepID stage outputID : String)
    (output : Option Value) (h : Extends l0 l) :
    Extends l0 (storeOutput l stepID stage outputID output).state := by
  have hq : ∀ d, Extends l0 { l with data := d } := fun d =>
    h.andThen (Extends.quiet rfl rfl (fun _ hn => hn))
  unfold storeOutput
  repeat' split
  all_goals first | exact h | exact hq _

theorem removeOutput_extends (env : Env) (l0 l : loopState) (stepID stage outputID : String)
    (output : Option Value) (h : Extends l0 l) :
    Extends l0 (removeOutput env l stepID stage outputID output).state := by
  unfold removeOutput
  split
  · exact h.failed _
  · split
    · exact h.failed _
    · rename_i dag1 hrem
      refine storeOutput_extends l0 _ stepID stage outputID output
        (h.andThen (Extends.quiet rfl rfl ?_))
      simp only [Remove_nodes hrem]
      exact fun _ hn => List.mem_of_mem_filter hn

theorem onStageCompleteLocked_extends (env : Env) (l : loopState) (stepID : String)
    (prev outputID : Option String) (output : Option Value) :
    Extends l (onStageCompleteLocked env l stepID prev outputID output).state := by
  unfold onStageCompleteLocked
  split
  · exact Extends.nothing l
  · split
    · exact (Extends.nothing l).failed _
    · split
      · exact (Extends.nothing l).failed _
      · rename_i dag1 hrem
        have hq : Extends l { l with dag := dag1 } := by
          refine Extends.quiet rfl rfl ?_
          simp only [Remove_nodes hrem]
          exact fun _ hn => List.mem_of_mem_filter hn
        split
        · exact hq
        · exact removeOutput_extends env l _ stepID _ _ output hq

theorem onStageComplete_extends (env : Env) (l : loopState) (stepID : String)
    (prev outputID : Option String) (output : Option Value) :
    Extends l (onStageComplete env l stepID prev outputID output).state := by
  have h1 := onStageCompleteLocked_extends env l stepID prev outputID output
  unfold onStageComplete
  split
  · rename_i l1 e heq
    rw [heq] at h1
    exact h1
  · exact h1.andThen (notifySteps_extends env _)

theorem Call.run_extends (l : loopState) (c : Call) : Extends l (c.run l).state := by
  cases c with
  | notify env => exact notifySteps_extends env l
  | stageComplete env stepID prev outputID output =>
    exact onStageComplete_extends env l stepID prev outputID output

theorem runCalls_extends (calls : List Call) :
    ∀ l : loopState, Extends l (runCalls l calls).state := by
  induction calls with
  | nil => intro l; exact Extends.nothing l
  | cons c rest ih =>
    intro l
    have h1 := Call.run_extends l c
    unfold runCalls
    split
    · rename_i l1 e heq
      rw [heq] at h1
      exact h1
    · exact h1.andThen (ih _)

/-- Claim C1: for every loop state and every sequence of `notifySteps` and `onStageComplete`
calls on it, the sequence makes at most one `ProvideStageInput` call for any DAG node and, when
the workflow-output payload sits on the node `output` only, at most one send on the output
channel; a node whose id is in the notified set is not dispatched again.  From the fresh loop
state of `Execute` (empty trace) the totals are at most one. -/
theorem at_most_once_dispatch (l : loopState) (calls : List Call)
    (hout : ∀ n ∈ l.dag.nodes, n.Item.Kind = DAGItemKindOutput → n.ID = "output") :
    (∀ id, provideCount id (runCalls l calls).state.trace ≤ provideCount id l.trace + 1)
      ∧ sendCount (runCalls l calls).state.trace ≤ sendCount l.trace + 1
      ∧ (∀ id ∈ l.inputsNotified,
          dispatchCount id (runCalls l calls).state.trace = dispatchCount id l.trace)
      ∧ (l.trace = [] →
          (∀ id, provideCount id (runCalls l calls).state.trace ≤ 1)
            ∧ sendCount (runCalls l calls).state.trace ≤ 1) := by
  have h := runCalls_extends calls l
  have hp : ∀ id, provideCount id (runCalls l calls).state.trace
      ≤ provideCount id l.trace + 1 := by
    intro id
    have := h.provides id
    have := h.once id
    omega
  have hs : sendCount (runCalls l calls).state.trace ≤ sendCount l.trace + 1 := by
    have := h.sends hout
    have := h.once "output"
    omega
  refine ⟨hp, hs, fun id hid => ?_, fun hnil => ?_⟩
  · have hmono := h.mono id
    by_contra hne
    exact (h.fresh id (lt_of_le_of_ne hmono (Ne.symm hne))).1 hid
  · refine ⟨fun id => ?_, ?_⟩
    · have := hp id
      simp only [hnil, provideCount, List.countP_nil] at this
      simpa [provideCount] using this
    · have := hs
      simp only [hnil, sendCount, List.countP_nil] at this
      simpa [sendCount] using this

/-! ## The dispatch loop: what it leaves alone -/

theorem LoopStep.idle (l : loopState) (ids : List String) : LoopStep l l ids :=
  ⟨⟨[], by simp, rfl⟩, fun h => h, fun _ h => Or.inl h, fun _ h => h⟩

theorem LoopStep.append {l l1 l2 : loopState} {ids1 ids2 : List String}
    (h1 : LoopStep l l1 ids1) (h2 : LoopStep l1 l2 ids2) : LoopStep l l2 (ids1 ++ ids2) := by
  obtain ⟨new1, ht1, hc1⟩ := h1.appended
  obtain ⟨new2, ht2, hc2⟩ := h2.appended
  refine ⟨⟨new1 ++ new2, by rw [ht2, ht1, List.append_assoc], ?_⟩,
    fun h => h2.done (h1.done h), fun id hid => ?_, fun _ h => h2.grows (h1.grows h)⟩
  · rw [List.countP_append, hc1, hc2]
  · rcases h2.bound id hid with h | h
    · rcases h1.bound id h with h' | h'
      · exact Or.inl h'
      · exact Or.inr (List.mem_append_left _ h')
    · exact Or.inr (List.mem_append_right _ h)

theorem LoopStep.withFail {l l1 : loopState} {ids : List String} (h : LoopStep l l1 ids)
    (e : Error) (he : (Event.errorf e).isDeadlock = false) : LoopStep l (l1.fail e) ids := by
  obtain ⟨new, ht, hc⟩ := h.appended
  refine ⟨⟨new ++ [Event.errorf e, Event.cancel], ?_, ?_⟩, h.done, h.bound, h.grows⟩
  · simp [loopState.fail, ht]
  · rw [List.countP_append, hc, List.countP_cons, List.countP_cons, List.countP_nil, he]
    rfl

theorem LoopStep.marking (l : loopState) (id : String) :
    LoopStep l { l with inputsNotified := l.inputsNotified ++ [id] } [id] :=
  ⟨⟨[], by simp, rfl⟩, fun h => h, fun x hx => by
    rcases List.mem_append.mp hx with h | h
    · exact Or.inl h
    · exact Or.inr h, fun _ h => List.mem_append_left _ h⟩

/-- One more call that is not the deadlock report. -/
theorem LoopStep.call {l l1 : loopState} {ids : List String} (h : LoopStep l l1 ids)
    (ev : Event) (hev : ev.isDeadlock = false) :
    LoopStep l { l1 with trace := l1.trace ++ [ev] } ids := by
  obtain ⟨new, ht, hc⟩ := h.appended
  refine ⟨⟨new ++ [ev], ?_, ?_⟩, h.done, h.bound, h.grows⟩
  · simp [ht]
  · simp [List.countP_append, List.countP_cons, hc, hev]

theorem provideInput_loopStep (env : Env) (l0 l : loopState) (node : Node) (v : Value)
    (anyKeyed : Bool)
    (ids : List String) (h : LoopStep l0 l ids) :
    LoopStep l0 (provideInput env l node v anyKeyed).state ids := by
  unfold provideInput
  split
  · split
    · split
      · exact h
      · split
        · split
          · exact (h.call (Event.provide _ _ _ _) rfl).withFail _ rfl
          · exact h.call (Event.provide _ _ _ _) rfl
        · exact h
    · exact h
  · exact h

theorem dispatch_loopStep (env : Env) (l0 l : loopState) (node : Node) (v : Value)
    (anyKeyed : Bool)
    (ids : List String) (h : LoopStep l0 l ids) :
    LoopStep l0 (dispatch env l node v anyKeyed).state ids := by
  unfold dispatch
  split
  · split
    · exact h
    · split
      · exact h.withFail _ rfl
      · exact provideInput_loopStep env l0 l node v anyKeyed ids h
  · obtain ⟨new, ht, hc⟩ := h.appended
    refine ⟨⟨new ++ [Event.send node.ID v], ?_, ?_⟩, fun _ => rfl, h.bound, h.grows⟩
    · simp [PassResult.state, ht]
    · simp [List.countP_append, List.countP_cons, hc, Event.isDeadlock]
  · exact h

theorem notifyNode_loopStep (env : Env) (l : loopState) (node : Node) :
    LoopStep l (notifyNode env l node).state [node.ID] := by
  unfold notifyNode
  split
  · exact LoopStep.idle l _
  · simp only []
    split
    · exact LoopStep.marking l node.ID
    · split
      · exact LoopStep.marking l node.ID
      · exact dispatch_loopStep env l _ node _ _ _ (LoopStep.marking l node.ID)

theorem notifyLoop_loopStep (env : Env) (nodes : List Node) :
    ∀ l : loopState, LoopStep l (notifyLoop env l nodes).state (nodes.map Node.ID) := by
  induction nodes with
  | nil => intro l; exact LoopStep.idle l _
  | cons node rest ih =>
    intro l
    have h1 := notifyNode_loopStep env l node
    unfold notifyLoop
    split
    · rename_i l1 heq
      rw [heq] at h1
      exact h1.append (ih l1)
    · have h2 := h1.append (LoopStep.idle _ (rest.map Node.ID))
      exact h2

theorem notifyNode_notified (env : Env) (l : loopState) (node : Node)
    (h : node.ID ∈ l.inputsNotified) : notifyNode env l node = PassResult.completed l := by
  unfold notifyNode
  simp [h]

/-- A loop over nodes that are all notified does nothing. -/
theorem notifyLoop_notified (env : Env) (nodes : List Node) (l : loopState)
    (h : ∀ n ∈ nodes, n.ID ∈ l.inputsNotified) :
    notifyLoop env l nodes = PassResult.completed l := by
  induction nodes with
  | nil => rfl
  | cons node rest ih =>
    unfold notifyLoop
    rw [notifyNode_notified env l node (h node (List.mem_cons_self _ _))]
    exact ih (fun n hn => h n (List.mem_cons_of_mem _ hn))

theorem notifyNode_marks (env : Env) (l : loopState) (node : Node) :
    node.ID ∈ (notifyNode env l node).state.inputsNotified := by
  by_cases h : node.ID ∈ l.inputsNotified
  · rw [notifyNode_notified env l node h]; exact h
  · have hm : node.ID ∈ l.inputsNotified ++ [node.ID] := by simp
    unfold notifyNode
    simp only [h, if_false]
    split
    · exact hm
    · split
      · exact hm
      · unfold dispatch provideInput
        repeat' split
        all_goals exact hm

/-- A loop that ran to its end has marked every node it visited. -/
theorem notifyLoop_marks (env : Env) (nodes : List Node) :
    ∀ l l1 : loopState, notifyLoop env l nodes = PassResult.completed l1 →
      ∀ n ∈ nodes, n.ID ∈ l1.inputsNotified := by
  induction nodes with
  | nil => intro l l1 _ n hn; cases hn
  | cons node rest ih =>
    intro l l1 h n hn
    unfold notifyLoop at h
    split at h
    · rename_i l' heq
      rcases List.mem_cons.mp hn with hhead | htail
      · subst hhead
        have hm := notifyNode_marks env l n
        rw [heq] at hm
        have hstep := notifyLoop_loopStep env rest l'
        rw [h] at hstep
        exact hstep.grows hm
      · exact ih l' l1 h n htail
    · rename_i hne
      exact absurd h (hne l1)

/-! ## The deadlock check and idempotence -/

theorem GetNodeByID_ok {d : DirectedGraph} {id : String} {n : Node}
    (h : d.GetNodeByID id = Except.ok n) : n ∈ d.nodes ∧ n.ID = id := by
  unfold DirectedGraph.GetNodeByID at h
  split at h
  · rename_i m hfind
    cases h
    exact ⟨List.mem_of_find?_eq_some hfind, by simpa using List.find?_some hfind⟩
  · cases h

theorem GetNodeByID_of_mem {d : DirectedGraph} {id : String} {n : Node}
    (hn : n ∈ d.nodes) (hid : n.ID = id) : ∃ m, d.GetNodeByID id = Except.ok m := by
  unfold DirectedGraph.GetNodeByID
  cases hfind : d.nodes.find? (fun n => decide (n.ID = id)) with
  | some m => exact ⟨m, rfl⟩
  | none =>
    rw [List.find?_eq_none] at hfind
    exact absurd (by simpa using hid) (hfind n hn)

/-- The deadlock check either leaves the state alone (condition false) or, with the condition
true and the node `output` found, records the deadlock error. -/
theorem deadlockCheck_completed {env : Env} {l l1 : loopState}
    (h : deadlockCheck env l = PassResult.completed l1) :
    (¬ deadlockCondition env l ∧ l1 = l)
      ∨ (deadlockCondition env l ∧ (∃ n, l.dag.GetNodeByID "output" = Except.ok n)
          ∧ l1 = l.fail (Error.deadlock (l.dag.ListInboundConnections "output"))) := by
  unfold deadlockCheck at h
  split at h
  · rename_i hc
    split at h
    · cases h
    · rename_i n hget
      injection h with h
      rw [(GetNodeByID_ok hget).2] at h
      exact Or.inr ⟨hc, ⟨n, hget⟩, h.symm⟩
  · rename_i hc
    injection h with h
    exact Or.inl ⟨hc, h.symm⟩

theorem deadlockCheck_of_condition {env : Env} {l : loopState} {n : Node}
    (hc : deadlockCondition env l) (hget : l.dag.GetNodeByID "output" = Except.ok n) :
    deadlockCheck env l
      = PassResult.completed (l.fail (Error.deadlock (l.dag.ListInboundConnections "output"))) := by
  unfold deadlockCheck
  rw [if_pos hc, hget]
  simp only [(GetNodeByID_ok hget).2]

theorem deadlockCheck_of_not_condition {env : Env} {l : loopState}
    (hc : ¬ deadlockCondition env l) : deadlockCheck env l = PassResult.completed l := by
  unfold deadlockCheck
  rw [if_neg hc]

/-- The condition of the deadlock check reads the running steps and `outputDone` only. -/
theorem deadlockCondition_congr (env : Env) {l l1 : loopState}
    (hr : l1.runningSteps = l.runningSteps) (hd : l1.outputDone = l.outputDone) :
    deadlockCondition env l1 ↔ deadlockCondition env l := by
  unfold deadlockCondition countState
  rw [hr, hd]

/-- A pass that ran to its end went through the whole dispatch loop and the deadlock check. -/
theorem notifySteps_completed {env : Env} {l l1 : loopState}
    (h : notifySteps env l = PassResult.completed l1) :
    ∃ l', notifyLoop env l l.dag.ListNodesWithoutInboundConnections = PassResult.completed l'
      ∧ deadlockCheck env l' = PassResult.completed l1 := by
  unfold notifySteps at h
  split at h
  · rename_i l' heq
    exact ⟨l', heq, h⟩
  · rename_i hne
    exact absurd h (hne l1)

/-- After a pass that ran to its end every ready node is notified, and a further dispatch
loop does nothing. -/
theorem notifyLoop_after_completed {env0 : Env} (env : Env) {l l1 : loopState}
    (h : notifySteps env0 l = PassResult.completed l1) :
    notifyLoop env l1 l1.dag.ListNodesWithoutInboundConnections = PassResult.completed l1 := by
  obtain ⟨l', hloop, hcheck⟩ := notifySteps_completed h
  have hf1 := notifyLoop_frame env0 l.dag.ListNodesWithoutInboundConnections l
  rw [hloop] at hf1
  have hf2 := deadlockCheck_frame env0 l'
  rw [hcheck] at hf2
  have hdag : l1.dag = l.dag := hf2.1.trans hf1.1
  have hmarks := notifyLoop_marks env0 _ l l' hloop
  have hnot : l1.inputsNotified = l'.inputsNotified := by
    rcases deadlockCheck_completed hcheck with ⟨_, h1⟩ | ⟨_, _, h1⟩
    · rw [h1]
    · rw [h1]; rfl
  apply notifyLoop_notified
  intro n hn
  rw [hdag] at hn
  rw [hnot]
  exact hmarks n hn

theorem fail_counts (l : loopState) (e : Error) :
    (∀ id, provideCount id (l.fail e).trace = provideCount id l.trace)
      ∧ sendCount (l.fail e).trace = sendCount l.trace := by
  refine ⟨fun id => ?_, ?_⟩
  · simp [loopState.fail, provideCount, List.countP_append, List.countP_cons, Event.isProvide]
  · simp [loopState.fail, sendCount, List.countP_append, List.countP_cons, Event.isSend]

/-- Claim C7 (amended): after a `notifySteps` pass that ran to its end (no early return, no
panic), a second pass with the same DAG, data model and step states runs to its end, makes
no `ProvideStageInput` call and no send on the output channel, and leaves the notified set,
the DAG, the data model, `outputDone`, `lastError` and the output channel as the first pass
left them. -/
theorem notifySteps_idempotent (env : Env) (l l1 : loopState)
    (h : notifySteps env l = PassResult.completed l1) :
    ∃ l2, notifySteps env l1 = PassResult.completed l2
      ∧ (∀ id, provideCount id l2.trace = provideCount id l1.trace)
      ∧ sendCount l2.trace = sendCount l1.trace
      ∧ l2.inputsNotified = l1.inputsNotified
      ∧ l2.dag = l1.dag
      ∧ l2.data = l1.data
      ∧ l2.outputDone = l1.outputDone
      ∧ l2.lastError = l1.lastError
      ∧ l2.outputDataChannel = l1.outputDataChannel := by
  have hloop2 := notifyLoop_after_completed env h
  obtain ⟨l', _, hcheck⟩ := notifySteps_completed h
  have hpass : notifySteps env l1 = deadlockCheck env l1 := by
    unfold notifySteps
    rw [hloop2]
  rcases deadlockCheck_completed hcheck with ⟨hc, h1⟩ | ⟨hc, ⟨n, hget⟩, h1⟩
  · subst h1
    refine ⟨l1, ?_, fun _ => rfl, rfl, rfl, rfl, rfl, rfl, rfl, rfl⟩
    rw [hpass, deadlockCheck_of_not_condition hc]
  · have hc1 : deadlockCondition env l1 :=
      (deadlockCondition_congr env (by rw [h1]; rfl) (by rw [h1]; rfl)).mpr hc
    have hdag : l1.dag = l'.dag := by rw [h1]; rfl
    have hget1 : l1.dag.GetNodeByID "output" = Except.ok n := by rw [hdag]; exact hget
    refine ⟨l1.fail (Error.deadlock (l1.dag.ListInboundConnections "output")), ?_,
      (fail_counts l1 _).1, (fail_counts l1 _).2, rfl, rfl, rfl, rfl, ?_, rfl⟩
    · rw [hpass, deadlockCheck_of_condition hc1 hget1]
    · rw [hdag, h1]; rfl

theorem countState_eq_zero (env : Env) (l : loopState) (s t : RunningStepState)
    (hst : s ≠ t) (h : ∀ id ∈ l.runningSteps, env.State id = s) : countState env l t = 0 := by
  unfold countState
  rw [List.length_eq_zero, List.filter_eq_nil_iff]
  intro id hid
  simp [h id hid, hst]

theorem countState_pos (env : Env) (l : loopState) (s : RunningStepState)
    (hne : l.runningSteps ≠ []) (h : ∀ id ∈ l.runningSteps, env.State id = s) :
    countState env l s > 0 := by
  unfold countState
  obtain ⟨id, hid⟩ := List.exists_mem_of_ne_nil _ hne
  exact List.length_pos_of_mem (List.mem_filter.mpr ⟨hid, by simp [h id hid]⟩)

/-- Claim C8 (amended): when the previous `notifySteps` pass ran to its end (no early return
on a schema or delivery failure, no panic), the DAG holds the node `output`, and at the next
pass there is at least one running step, every running step is in state `WaitingForInput`
and the output has not been produced, then the next pass reports deadlock: it sets
`lastError` to the deadlock error naming the inbound connections of `output` and calls
`cancel`. -/
theorem deadlock_reported_when_all_waiting (env0 env : Env) (l l1 : loopState)
    (h : notifySteps env0 l = PassResult.completed l1)
    (hnode : ∃ n ∈ l1.dag.nodes, n.ID = "output")
    (hsteps : l1.runningSteps ≠ [])
    (hwait : ∀ id ∈ l1.runningSteps, env.State id = RunningStepStateWaitingForInput)
    (hdone : l1.outputDone = false) :
    ∃ l2, notifySteps env l1 = PassResult.completed l2
      ∧ l2.lastError = some (Error.deadlock (l1.dag.ListInboundConnections "output"))
      ∧ l2.cancelled = true
      ∧ l2.trace = l1.trace ++
          [Event.errorf (Error.deadlock (l1.dag.ListInboundConnections "output")),
            Event.cancel] := by
  have hloop2 := notifyLoop_after_completed env h
  have hpass : notifySteps env l1 = deadlockCheck env l1 := by
    unfold notifySteps
    rw [hloop2]
  have hc : deadlockCondition env l1 :=
    ⟨countState_eq_zero env l1 _ _ (by decide) hwait,
      countState_eq_zero env l1 _ _ (by decide) hwait,
      countState_pos env l1 _ hsteps hwait, hdone⟩
  obtain ⟨n, hn, hid⟩ := hnode
  obtain ⟨m, hget⟩ := GetNodeByID_of_mem hn hid
  exact ⟨_, by rw [hpass, deadlockCheck_of_condition hc hget], rfl, rfl, rfl⟩

/-! ## Soundness of the deadlock report -/

theorem notifyNode_output_done (env : Env) (l l1 : loopState) (node : Node)
    (h : notifyNode env l node = PassResult.completed l1)
    (hnot : node.ID ∉ l.inputsNotified) (hkind : node.Item.Kind = DAGItemKindOutput)
    (hinput : node.Item.Input.isNil = false) : l1.outputDone = true := by
  simp [notifyNode, hnot, hinput, dispatch, hkind] at h
  split at h
  · cases h
  · injection h with h
    rw [← h]

/-- A dispatch loop that ran to its end over a list holding a not yet notified
workflow-output node with an input template has produced the output. -/
theorem notifyLoop_output_done (env : Env) (id : String) (nodes : List Node) :
    ∀ l l1 : loopState, notifyLoop env l nodes = PassResult.completed l1 →
      id ∉ l.inputsNotified → (∃ n ∈ nodes, n.ID = id) →
      (∀ m ∈ nodes, m.ID = id →
        m.Item.Kind = DAGItemKindOutput ∧ m.Item.Input.isNil = false) →
      l1.outputDone = true := by
  induction nodes with
  | nil => intro l l1 _ _ hex; obtain ⟨n, hn, _⟩ := hex; cases hn
  | cons node rest ih =>
    intro l l1 h hnot hex hwf
    unfold notifyLoop at h
    split at h
    · rename_i l' heq
      have hrest := notifyLoop_loopStep env rest l'
      rw [h] at hrest
      by_cases hid : node.ID = id
      · have hw := hwf node (List.mem_cons_self _ _) hid
        exact hrest.done (notifyNode_output_done env l l' node heq (hid ▸ hnot) hw.1 hw.2)
      · have hstep := notifyNode_loopStep env l node
        rw [heq] at hstep
        have hnot' : id ∉ l'.inputsNotified := by
          intro hin
          rcases hstep.bound id hin with h1 | h1
          · exact hnot h1
          · have hx : id = node.ID := by simpa using h1
            exact hid hx.symm
        obtain ⟨n, hn, hnid⟩ := hex
        have hn' : n ∈ rest := by
          rcases List.mem_cons.mp hn with h1 | h1
          · exact absurd (h1 ▸ hnid) hid
          · exact h1
        exact ih l' l1 h hnot' ⟨n, hn', hnid⟩
          (fun m hm => hwf m (List.mem_cons_of_mem _ hm))
    · rename_i hne
      exact absurd h (hne l1)

theorem not_mem_of_countP_eq_zero (p : Event → Bool) (evs : List Event) (ev : Event)
    (hc : List.countP p evs = 0) (hp : p ev = true) : ev ∉ evs := by
  intro hmem
  have := List.countP_pos_iff.mpr ⟨ev, hmem, hp⟩
  omega

theorem state_of_deadlockCondition {env : Env} {l : loopState}
    (hc : deadlockCondition env l) :
    (∀ id ∈ l.runningSteps, env.State id = RunningStepStateWaitingForInput
        ∨ env.State id = RunningStepStateFinished)
      ∧ (∃ id ∈ l.runningSteps, env.State id = RunningStepStateWaitingForInput) := by
  obtain ⟨hs, hr, hw, _⟩ := hc
  unfold countState at hs hr hw
  rw [List.length_eq_zero, List.filter_eq_nil_iff] at hs hr
  refine ⟨fun id hid => ?_, ?_⟩
  · have h1 := hs id hid
    have h2 := hr id hid
    cases hst : env.State id <;> simp_all
  · obtain ⟨id, hid⟩ := List.exists_mem_of_length_pos hw
    rw [List.mem_filter] at hid
    exact ⟨id, hid.1, by simpa using hid.2⟩

/-- Claim C3 (amended): whenever a `notifySteps` pass reports deadlock (the calls it appends to
the trace contain the `Errorf` of the deadlock error), no running step is `Starting` or
`Running`: every running step is `WaitingForInput` or `Finished`, and at least one is
`WaitingForInput`; the error names the inbound connections of the node `output`; and when
the node `output` is a workflow-output node with an input template and was not marked
notified without the output being produced, `output` has at least one inbound connection. -/
theorem deadlock_report_sound (env : Env) (l : loopState) (new : List Event)
    (deps : List String)
    (htrace : (notifySteps env l).state.trace = l.trace ++ new)
    (hreport : Event.errorf (Error.deadlock deps) ∈ new) :
    (∀ id ∈ l.runningSteps, env.State id = RunningStepStateWaitingForInput
        ∨ env.State id = RunningStepStateFinished)
      ∧ (∃ id ∈ l.runningSteps, env.State id = RunningStepStateWaitingForInput)
      ∧ deps = l.dag.ListInboundConnections "output"
      ∧ ((∀ n ∈ l.dag.nodes, n.ID = "output" →
            n.Item.Kind = DAGItemKindOutput ∧ n.Item.Input.isNil = false) →
          ("output" ∈ l.inputsNotified → l.outputDone = true) →
          l.dag.ListInboundConnections "output" ≠ []) := by
  have hstep := notifyLoop_loopStep env l.dag.ListNodesWithoutInboundConnections l
  have hframe := notifyLoop_frame env l.dag.ListNodesWithoutInboundConnections l
  obtain ⟨new0, ht0, hc0⟩ := hstep.appended
  have hquiet : ∀ r : PassResult,
      r.state.trace = (notifyLoop env l l.dag.ListNodesWithoutInboundConnections).state.trace →
      notifySteps env l = r → False := by
    intro r hr hpass
    rw [hpass, hr, ht0] at htrace
    have := List.append_cancel_left htrace
    exact not_mem_of_countP_eq_zero _ new0 (Event.errorf (Error.deadlock deps)) hc0 rfl
      (this ▸ hreport)
  cases hloop : notifyLoop env l l.dag.ListNodesWithoutInboundConnections with
  | returned l' =>
    exact (hquiet (PassResult.returned l') (by rw [hloop]) (by unfold notifySteps; rw [hloop])).elim
  | panicked l' e =>
    exact (hquiet (PassResult.panicked l' e) (by rw [hloop])
      (by unfold notifySteps; rw [hloop])).elim
  | completed l' =>
    have hpass : notifySteps env l = deadlockCheck env l' := by
      unfold notifySteps; rw [hloop]
    rw [hloop] at hframe hstep ht0
    have ht0' : l'.trace = l.trace ++ new0 := ht0
    have hdag : l'.dag = l.dag := hframe.1
    have hrun : l'.runningSteps = l.runningSteps := hframe.2.2.1
    by_cases hc : deadlockCondition env l'
    · cases hget : l'.dag.GetNodeByID "output" with
      | error err =>
        refine (hquiet (PassResult.panicked l' (Error.cannotFetchOutput err))
          (by rw [hloop]; rfl) ?_).elim
        rw [hpass]; unfold deadlockCheck; rw [if_pos hc, hget]
      | ok n =>
        rw [hpass, deadlockCheck_of_condition hc hget] at htrace
        have hnew : new = new0 ++
            [Event.errorf (Error.deadlock (l'.dag.ListInboundConnections "output")),
              Event.cancel] := by
          have : l.trace ++ new = l.trace ++ (new0 ++
              [Event.errorf (Error.deadlock (l'.dag.ListInboundConnections "output")),
                Event.cancel]) := by
            rw [← htrace]
            simp [PassResult.state, loopState.fail, ht0']
          exact List.append_cancel_left this
        have hdeps : deps = l.dag.ListInboundConnections "output" := by
          rw [hnew] at hreport
          rcases List.mem_append.mp hreport with h1 | h1
          · exact absurd h1 (not_mem_of_countP_eq_zero _ new0 _ hc0 rfl)
          · simp at h1
            rw [h1, hdag]
        obtain ⟨hall, hex⟩ := state_of_deadlockCondition hc
        rw [hrun] at hall hex
        refine ⟨hall, hex, hdeps, fun hwf hinv hempty => ?_⟩
        obtain ⟨hn, hnid⟩ := GetNodeByID_ok hget
        rw [hdag] at hn
        have hready : n ∈ l.dag.ListNodesWithoutInboundConnections := by
          unfold DirectedGraph.ListNodesWithoutInboundConnections
          rw [List.mem_filter]
          exact ⟨hn, by rw [hnid, hempty]; rfl⟩
        have hdone : l'.outputDone = true := by
          by_cases hin : "output" ∈ l.inputsNotified
          · exact hstep.done (hinv hin)
          · exact notifyLoop_output_done env "output" _ l l' hloop hin ⟨n, hready, hnid⟩
              (fun m hm hmid => hwf m (List.mem_of_mem_filter hm) hmid)
        rw [hc.2.2.2] at hdone
        cases hdone
    · refine (hquiet (PassResult.completed l') (by rw [hloop]) ?_).elim
      rw [hpass, deadlockCheck_of_not_condition hc]

/-! ## Delivery of stage input -/

theorem notifyLoop_append (env : Env) (pre rest : List Node) :
    ∀ l l1 : loopState, notifyLoop env l pre = PassResult.completed l1 →
      notifyLoop env l (pre ++ rest) = notifyLoop env l1 rest := by
  induction pre with
  | nil =>
    intro l l1 h
    injection h with h
    rw [List.nil_append, h]
  | cons node pre ih =>
    intro l l1 h
    rw [List.cons_append]
    simp only [notifyLoop] at h ⊢
    cases hnode : notifyNode env l node with
    | completed l' =>
      rw [hnode] at h
      exact ih l' l1 h
    | returned l' => rw [hnode] at h; cases h
    | panicked l' e => rw [hnode] at h; cases h

theorem deadlockCheck_appends (env : Env) (l : loopState) :
    ∃ tail, (deadlockCheck env l).state.trace = l.trace ++ tail := by
  unfold deadlockCheck
  split
  · split
    · exact ⟨[], by simp [PassResult.state]⟩
    · exact ⟨_, rfl⟩
  · exact ⟨[], by simp [PassResult.state]⟩

/-- Once the dispatch loop has reached a ready node, whatever the visit of that node appends
to the trace stays in the trace of the pass. -/
theorem notifySteps_keeps_node_trace (env : Env) (l l1 : loopState) (pre post : List Node)
    (node : Node)
    (hready : l.dag.ListNodesWithoutInboundConnections = pre ++ node :: post)
    (hreach : notifyLoop env l pre = PassResult.completed l1) :
    ∃ tail, (notifySteps env l).state.trace = (notifyNode env l1 node).state.trace ++ tail := by
  have hloop : notifyLoop env l l.dag.ListNodesWithoutInboundConnections
      = notifyLoop env l1 (node :: post) := by
    rw [hready]
    exact notifyLoop_append env pre (node :: post) l l1 hreach
  unfold notifySteps
  rw [hloop]
  simp only [notifyLoop]
  cases hnode : notifyNode env l1 node with
  | returned l2 => exact ⟨[], by simp⟩
  | panicked l2 e => exact ⟨[], by simp⟩
  | completed l2 =>
    simp only []
    obtain ⟨new, hnew, _⟩ := (notifyLoop_loopStep env post l2).appended
    cases hpost : notifyLoop env l2 post with
    | returned l3 =>
      rw [hpost] at hnew
      exact ⟨new, hnew⟩
    | panicked l3 e =>
      rw [hpost] at hnew
      exact ⟨new, hnew⟩
    | completed l3 =>
      rw [hpost] at hnew
      obtain ⟨tail, htail⟩ := deadlockCheck_appends env l3
      refine ⟨new ++ tail, ?_⟩
      simp only []
      rw [htail]
      have h3 : l3.trace = l2.trace ++ new := hnew
      rw [h3, List.append_assoc]
      rfl

theorem typedInputData_of_string_keys :
    ∀ kvs : List (Key × Value), (∀ kv ∈ kvs, ∃ s, kv.1 = Key.str s) →
      ∃ m, typedInputData kvs = some m
        ∧ m.map (fun kv => (Key.str kv.1, kv.2)) = kvs := by
  intro kvs
  induction kvs with
  | nil => intro _; exact ⟨[], rfl, rfl⟩
  | cons kv rest ih =>
    intro h
    obtain ⟨m, hm, hmap⟩ := ih (fun x hx => h x (List.mem_cons_of_mem _ hx))
    obtain ⟨s, hs⟩ := h kv (List.mem_cons_self _ _)
    obtain ⟨k, v⟩ := kv
    simp only at hs
    subst hs
    refine ⟨(s, v) :: m, ?_, ?_⟩
    · simp only [typedInputData, hm]
    · simp only [List.map_cons, hmap]

/-- The visit of a ready, not notified step-stage node with schema, step id and stage id
calls `ProvideStageInput` with the string-keyed copy of the resolved map. -/
theorem notifyNode_delivers (env : Env) (l : loopState) (node : Node) (inputSchema : Schema)
    (kvs : List (Key × Value)) (m : List (String × Value)) (checked : Value)
    (hfresh : node.ID ∉ l.inputsNotified)
    (hkind : node.Item.Kind = DAGItemKindStepStage)
    (hinput : node.Item.Input.isNil = false)
    (hstep : node.Item.StepID ≠ "") (hstage : node.Item.StageID ≠ "")
    (hschema : node.Item.InputSchema = some inputSchema)
    (hres : resolveExpressions env l.workflowContext l.data node.Item.Input
      = Except.ok (Value.map kvs))
    (hdyn : resolvesToAnyKeyedMap env l.workflowContext l.data node.Item.Input = true)
    (hacc : inputSchema.Unserialize (Value.map kvs) = Except.ok checked)
    (htyped : typedInputData kvs = some m)
    (hrun : node.Item.StepID ∈ l.runningSteps) :
    ∃ tail, (notifyNode env l node).state.trace
      = l.trace ++ Event.provide node.ID node.Item.StepID node.Item.StageID m :: tail := by
  have hcond : node.Item.StepID ≠ "" ∧ node.Item.StageID ≠ "" := ⟨hstep, hstage⟩
  simp only [notifyNode, if_neg hfresh, hinput, hres, dispatch, hkind, hschema, hacc,
    provideInput, if_pos hcond, hdyn, assertAnyKeyedMap, htyped, if_pos hrun,
    Bool.false_eq_true, if_false]
  cases env.ProvideStageInput node.Item.StepID node.Item.StageID m with
  | some err => exact ⟨_, by simp [PassResult.state, loopState.fail]; rfl⟩
  | none => exact ⟨[], by simp [PassResult.state]⟩

/-- Claim C10 (amended): in a `notifySteps` pass, for every ready, not previously notified
`StepStage` node that has an input template, an attached `InputSchema` that accepts the
resolved value, non-empty `StepID` and `StageID` and a running step stored under `StepID`,
when the template resolves to a key-polymorphic map (a value of dynamic type `map[any]any`:
the template is a map, or an expression that evaluates to such a map) whose keys are all
strings and the dispatch loop reaches the node (no earlier node of the pass ends the pass),
the pass calls `ProvideStageInput(StageID, m)` on that step, where `m` is the string-keyed
mapping holding exactly the entries of the resolved map. -/
theorem stage_input_delivered (env : Env) (l l1 : loopState) (pre post : List Node)
    (node : Node) (inputSchema : Schema) (kvs : List (Key × Value)) (checked : Value)
    (hids : (l.dag.nodes.map Node.ID).Nodup)
    (hready : l.dag.ListNodesWithoutInboundConnections = pre ++ node :: post)
    (hreach : notifyLoop env l pre = PassResult.completed l1)
    (hfresh : node.ID ∉ l.inputsNotified)
    (hkind : node.Item.Kind = DAGItemKindStepStage)
    (hinput : node.Item.Input.isNil = false)
    (hstep : node.Item.StepID ≠ "") (hstage : node.Item.StageID ≠ "")
    (hrun : node.Item.StepID ∈ l.runningSteps)
    (hschema : node.Item.InputSchema = some inputSchema)
    (hres : resolveExpressions env l.workflowContext l.data node.Item.Input
      = Except.ok (Value.map kvs))
    (hdyn : resolvesToAnyKeyedMap env l.workflowContext l.data node.Item.Input = true)
    (hacc : inputSchema.Unserialize (Value.map kvs) = Except.ok checked)
    (hkeys : ∀ kv ∈ kvs, ∃ s, kv.1 = Key.str s) :
    ∃ (m : List (String × Value)) (new : List Event),
      (notifySteps env l).state.trace = l.trace ++ new
        ∧ Event.provide node.ID node.Item.StepID node.Item.StageID m ∈ new
        ∧ m.map (fun kv => (Key.str kv.1, kv.2)) = kvs := by
  obtain ⟨m, htyped, hmap⟩ := typedInputData_of_string_keys kvs hkeys
  have hframe := notifyLoop_frame env pre l
  have hstepPre := notifyLoop_loopStep env pre l
  rw [hreach] at hframe hstepPre
  obtain ⟨hdag, hdata, hrunning, hctx⟩ := hframe
  have hnodup : ((pre ++ node :: post).map Node.ID).Nodup := by
    rw [← hready]
    exact hids.sublist (List.Sublist.map _ (List.filter_sublist _))
  have hfresh1 : node.ID ∉ l1.inputsNotified := by
    intro hin
    rcases hstepPre.bound node.ID hin with h | h
    · exact hfresh h
    · rw [List.map_append, List.map_cons] at hnodup
      exact (List.nodup_append.mp hnodup).2.2 h (List.mem_cons_self _ _)
  obtain ⟨newPre, hnewPre, _⟩ := hstepPre.appended
  have hpre : l1.trace = l.trace ++ newPre := hnewPre
  obtain ⟨tail1, htail1⟩ := notifyNode_delivers env l1 node inputSchema kvs m checked
    hfresh1 hkind hinput hstep hstage hschema
    (by
      have h1 : l1.workflowContext = l.workflowContext := hctx
      have h2 : l1.data = l.data := hdata
      rw [h1, h2]; exact hres)
    (by
      have h1 : l1.workflowContext = l.workflowContext := hctx
      have h2 : l1.data = l.data := hdata
      rw [h1, h2]; exact hdyn)
    hacc htyped
    (by
      have h3 : l1.runningSteps = l.runningSteps := hrunning
      rw [h3]; exact hrun)
  obtain ⟨tail2, htail2⟩ := notifySteps_keeps_node_trace env l l1 pre post node hready hreach
  refine ⟨m, newPre ++ Event.provide node.ID node.Item.StepID node.Item.StageID m
    :: (tail1 ++ tail2), ?_, by simp, hmap⟩
  rw [htail2, htail1, hpre]
  simp

/-! ## Effect of `onStageComplete` -/

theorem mapGet_mapSet_self (m : List (Key × Value)) (k : Key) (v : Value) :
    mapGet (mapSet m k v) k = some v := by
  induction m with
  | nil => simp [mapSet, mapGet]
  | cons kv rest ih =>
    obtain ⟨k', v'⟩ := kv
    by_cases h : k' = k
    · simp [mapSet, mapGet, h]
    · simp [mapSet, mapGet, h, ih]

theorem Remove_of_mem {d : DirectedGraph} {id : String} {n : Node}
    (hn : n ∈ d.nodes) (hid : n.ID = id) :
    ∃ d1, d.Remove id = Except.ok d1 ∧ d1.nodes = d.nodes.filter (fun n => n.ID ≠ id) := by
  unfold DirectedGraph.Remove
  have hany : d.nodes.any (fun n => decide (n.ID = id)) = true :=
    List.any_eq_true.mpr ⟨n, hn, by simpa using hid⟩
  rw [if_pos hany]
  exact ⟨_, rfl, rfl⟩

theorem stepMap_of_getPath {data : Value} {stepID : String} {stages : List (Key × Value)}
    (h : getPath data ["steps", stepID] = some (Value.map stages)) :
    ∃ top steps, data = Value.map top
      ∧ mapGet top (Key.str "steps") = some (Value.map steps)
      ∧ mapGet steps (Key.str stepID) = some (Value.map stages) := by
  cases data with
  | map top =>
    simp only [getPath] at h
    cases h1 : mapGet top (Key.str "steps") with
    | none => simp [h1] at h
    | some v =>
      simp only [h1] at h
      cases v with
      | map steps =>
        simp only [getPath] at h
        cases h2 : mapGet steps (Key.str stepID) with
        | none => simp [h2] at h
        | some w =>
          simp only [h2, getPath] at h
          injection h with h
          subst h
          exact ⟨top, steps, rfl, h1, h2⟩
      | scalar s => simp [getPath] at h
      | expr e => simp [getPath] at h
      | slice xs => simp [getPath] at h
  | scalar s => simp [getPath] at h
  | expr e => simp [getPath] at h
  | slice xs => simp [getPath] at h

/-- Lines 194 and 195 on a data model that holds a mapping at `steps.<stepID>`: the output is
stored at `steps.<stepID>.<stage>.<outputID>`. -/
theorem storeOutput_stores (l : loopState) (stepID stage outputID : String) (output : Value)
    (top steps stages : List (Key × Value))
    (hdata : l.data = Value.map top)
    (hsteps : mapGet top (Key.str "steps") = some (Value.map steps))
    (hstep : mapGet steps (Key.str stepID) = some (Value.map stages)) :
    ∃ data2, storeOutput l stepID stage outputID (some output)
        = PassResult.completed { l with data := data2 }
      ∧ getPath data2 ["steps", stepID, stage, outputID] = some output := by
  simp only [storeOutput, setStage, setStageOutput, hdata, hsteps, hstep,
    mapGet_mapSet_self]
  exact ⟨_, rfl, by simp only [getPath, mapGet_mapSet_self]⟩

/-- Claim C9: effect of `onStageComplete(stepID, prevStage, outputID, output)`.  When
`prevStage` is absent, the DAG and the data model are unchanged.  Otherwise, on a DAG that
holds the nodes looked up and a data model that holds a mapping at `steps.<stepID>`, the
nodes of the DAG afterwards are the nodes before except the stage node of
`(stepID, prevStage)` and, when `outputID` is present, the output node of
`(stepID, prevStage, outputID)`; an output node of that stage whose id differs from both
persists; and when `outputID` is present with output `v`, `v` is stored in the data model at
`steps.<stepID>.<prevStage>.<outputID>`, while without `outputID` the data model is
unchanged. -/
theorem onStageComplete_effect (env : Env) (l : loopState) (stepID : String)
    (prevStage outputID : Option String) (output : Option Value) :
    (prevStage = none →
        (onStageComplete env l stepID prevStage outputID output).state.dag = l.dag
          ∧ (onStageComplete env l stepID prevStage outputID output).state.data = l.data)
      ∧ (∀ stage, prevStage = some stage →
          (∃ n ∈ l.dag.nodes, n.ID = env.GetStageNodeID stepID stage) →
          (∀ o, outputID = some o →
            (∃ n ∈ l.dag.nodes, n.ID = env.GetOutputNodeID stepID stage o)
              ∧ env.GetOutputNodeID stepID stage o ≠ env.GetStageNodeID stepID stage
              ∧ ∃ v, output = some v) →
          (∃ stages, getPath l.data ["steps", stepID] = some (Value.map stages)) →
          (∀ n, n ∈ (onStageComplete env l stepID prevStage outputID output).state.dag.nodes
              ↔ n ∈ l.dag.nodes ∧ n.ID ≠ env.GetStageNodeID stepID stage
                ∧ ∀ o, outputID = some o → n.ID ≠ env.GetOutputNodeID stepID stage o)
            ∧ (∀ o' n, n ∈ l.dag.nodes → n.ID = env.GetOutputNodeID stepID stage o' →
                n.ID ≠ env.GetStageNodeID stepID stage →
                (∀ o, outputID = some o → env.GetOutputNodeID stepID stage o'
                  ≠ env.GetOutputNodeID stepID stage o) →
                n ∈ (onStageComplete env l stepID prevStage outputID output).state.dag.nodes)
            ∧ (∀ o v, outputID = some o → output = some v →
                getPath (onStageComplete env l stepID prevStage outputID output).state.data
                  ["steps", stepID, stage, o] = some v)
            ∧ (outputID = none →
                (onStageComplete env l stepID prevStage outputID output).state.data
                  = l.data)) := by
  have hpass : ∀ l1 : loopState, (notifySteps env l1).state.dag = l1.dag
      ∧ (notifySteps env l1).state.data = l1.data :=
    fun l1 => ⟨(notifySteps_frame env l1).1, (notifySteps_frame env l1).2.1⟩
  refine ⟨fun hprev => ?_, fun stage hprev hstageNode hout hdata => ?_⟩
  · subst hprev
    simp only [onStageComplete, onStageCompleteLocked]
    exact hpass l
  · subst hprev
    obtain ⟨sn, hsn, hsnid⟩ := hstageNode
    obtain ⟨sn', hget⟩ := GetNodeByID_of_mem hsn hsnid
    obtain ⟨hsn', hsnid'⟩ := GetNodeByID_ok hget
    obtain ⟨dag1, hrem1, hnodes1⟩ := Remove_of_mem hsn' hsnid'
    obtain ⟨stages, hstepMap⟩ := hdata
    obtain ⟨top, steps, hd1, hd2, hd3⟩ := stepMap_of_getPath hstepMap
    cases outputID with
    | none =>
      have hlocked : onStageCompleteLocked env l stepID (some stage) none output
          = PassResult.completed { l with dag := dag1 } := by
        simp only [onStageCompleteLocked, hget, hsnid', hrem1]
      have hall : onStageComplete env l stepID (some stage) none output
          = notifySteps env { l with dag := dag1 } := by
        simp only [onStageComplete, hlocked, PassResult.state]
      rw [hall, (hpass _).1, (hpass _).2]
      refine ⟨fun n => ?_, fun o' n hn _ hne _ => ?_, fun o v ho => (by cases ho), fun _ => rfl⟩
      · simp [hnodes1, List.mem_filter]
      · simp [hnodes1, List.mem_filter, hn, hne]
    | some o =>
      obtain ⟨⟨outNode, hon, honid⟩, hdiff, v, hv⟩ := hout o rfl
      subst hv
      have hon1 : outNode ∈ dag1.nodes := by
        rw [hnodes1, List.mem_filter]
        exact ⟨hon, by simpa [honid] using hdiff⟩
      obtain ⟨outNode', hget2⟩ := GetNodeByID_of_mem hon1 honid
      obtain ⟨hon', honid'⟩ := GetNodeByID_ok hget2
      obtain ⟨dag2, hrem2, hnodes2⟩ := Remove_of_mem hon' honid'
      obtain ⟨data2, hstore, hpath⟩ := storeOutput_stores { l with dag := dag2 } stepID stage o v
        top steps stages hd1 hd2 hd3
      have hlocked : onStageCompleteLocked env l stepID (some stage) (some o) (some v)
          = PassResult.completed { l with dag := dag2, data := data2 } := by
        simp only [onStageCompleteLocked, hget, hsnid', hrem1, removeOutput, hget2, honid',
          hrem2, hstore]
      have hall : onStageComplete env l stepID (some stage) (some o) (some v)
          = notifySteps env { l with dag := dag2, data := data2 } := by
        simp only [onStageComplete, hlocked, PassResult.state]
      rw [hall, (hpass _).1, (hpass _).2]
      refine ⟨fun n => ?_, fun o' n hn hnid hne hne2 => ?_,
        fun o1 v1 ho hv => ?_, fun h => (by cases h)⟩
      · simp only [hnodes2, hnodes1, List.mem_filter, decide_eq_true_eq, Option.some.injEq,
          forall_eq', ne_eq, decide_not, Bool.not_eq_true', decide_eq_false_iff_not]
        tauto
      · simp only [hnodes2, hnodes1, List.mem_filter, ne_eq, decide_not, Bool.not_eq_true',
          decide_eq_false_iff_not]
        exact ⟨⟨hn, hne⟩, by rw [hnid]; exact hne2 o rfl⟩
      · cases ho; cases hv; exact hpath

/-! ## Evaluations on concrete scenarios -/

theorem nestedTemplate_leaves : exprLeaves nestedTemplate = ["input.x", "input.x"] := rfl

/-- Witness of claim C1 on scenario S1: one `ProvideStageInput` call for the stage node and
one send on the output channel. -/
theorem at_most_once_dispatch_witness :
    (∀ n ∈ scenarioStraightLine.dag.nodes, n.Item.Kind = DAGItemKindOutput → n.ID = "output")
      ∧ ((∀ id, provideCount id (runCalls scenarioStraightLine straightLineCalls).state.trace
            ≤ 1)
          ∧ sendCount (runCalls scenarioStraightLine straightLineCalls).state.trace ≤ 1)
      ∧ provideCount "steps.a.exec"
          (runCalls scenarioStraightLine straightLineCalls).state.trace = 1
      ∧ sendCount (runCalls scenarioStraightLine straightLineCalls).state.trace = 1 :=
  ⟨by decide,
    (at_most_once_dispatch scenarioStraightLine straightLineCalls (by decide)).2.2.2 rfl,
    by decide!, by decide!⟩

/-- Witness of claim C2 on the template of scenario S6: the two expression leaves are
replaced by 7, the scalar 42 and the keys stay, also the key that is an expression. -/
theorem resolveExpressions_contract_witness :
    (∀ e ∈ exprLeaves nestedTemplate,
        runningEnv.Evaluate e (Value.map []) [] = Except.ok (Value.scalar (Scalar.int 7)))
      ∧ resolveExpressions runningEnv [] (Value.map []) nestedTemplate
          = Except.ok (Value.map [(Key.str "list",
              Value.slice [Value.scalar (Scalar.int 7), Value.scalar (Scalar.int 42),
                Value.scalar (Scalar.int 7)]),
              (Key.expr "input.y", Value.scalar (Scalar.bool true))])
      ∧ (exprLeaves nestedTemplate = [] →
          resolveExpressions runningEnv [] (Value.map []) nestedTemplate
            = Except.ok nestedTemplate) :=
  ⟨fun e he => by
      rw [nestedTemplate_leaves] at he
      simp only [List.mem_cons, List.mem_singleton, or_self, List.not_mem_nil, or_false] at he
      subst he
      rfl,
    resolveExpressions_contract runningEnv [] (Value.map [])
      (fun _ => Value.scalar (Scalar.int 7)) nestedTemplate (fun e he => by
        rw [nestedTemplate_leaves] at he
        simp only [List.mem_cons, List.mem_singleton, or_self, List.not_mem_nil,
          or_false] at he
        subst he
        rfl)⟩

/-- Counterexample to claim C3 as stated: with step `a` waiting for input and step `b`
finished, the pass reports deadlock although not every running step is in state
`WaitingForInput`. -/
theorem deadlock_reported_with_finished_step :
    List.countP Event.isDeadlock
        (notifySteps (scenarioEnv finishedStepStates) scenarioFinishedStep).state.trace = 1
      ∧ (notifySteps (scenarioEnv finishedStepStates) scenarioFinishedStep).state.lastError
          = some (Error.deadlock ["steps.a.exec.done"])
      ∧ (notifySteps (scenarioEnv finishedStepStates) scenarioFinishedStep).state.cancelled
          = true
      ∧ scenarioFinishedStep.trace = []
      ∧ "b" ∈ scenarioFinishedStep.runningSteps
      ∧ (scenarioEnv finishedStepStates).State "b" = RunningStepStateFinished
      ∧ ¬ (∀ id ∈ scenarioFinishedStep.runningSteps,
            (scenarioEnv finishedStepStates).State id = RunningStepStateWaitingForInput) :=
  ⟨by decide!, by decide!, by decide!, rfl, by decide, by decide, by decide⟩

/-- Witness of claim C3 (amended) on the scenario of its counterexample. -/
theorem deadlock_report_sound_witness :
    List.countP Event.isDeadlock
        (notifySteps (scenarioEnv finishedStepStates) scenarioFinishedStep).state.trace = 1
      ∧ (∀ id ∈ scenarioFinishedStep.runningSteps,
          (scenarioEnv finishedStepStates).State id = RunningStepStateWaitingForInput
            ∨ (scenarioEnv finishedStepStates).State id = RunningStepStateFinished)
      ∧ (∃ id ∈ scenarioFinishedStep.runningSteps,
          (scenarioEnv finishedStepStates).State id = RunningStepStateWaitingForInput)
      ∧ scenarioFinishedStep.dag.ListInboundConnections "output" ≠ [] :=
  have h := deadlock_report_sound (scenarioEnv finishedStepStates) scenarioFinishedStep
    [Event.errorf (Error.deadlock ["steps.a.exec.done"]), Event.cancel]
    ["steps.a.exec.done"] rfl (List.mem_cons_self _ _)
  ⟨by decide!, h.1, h.2.1, h.2.2.2 (by decide) (by decide)⟩

/-- Counterexample to claim C7 as stated: the first pass returns early when the schema of
step `a` rejects its input, before the ready stage node of step `b` is visited; the second
pass, with nothing changed in between, calls `ProvideStageInput` for that node and changes
the notified set. -/
theorem second_pass_dispatches_after_rejected_input :
    provideCount "steps.b.exec" (notifySteps runningEnv scenarioRejected).state.trace = 0
      ∧ (notifySteps runningEnv scenarioRejected).state.inputsNotified = ["steps.a.exec"]
      ∧ provideCount "steps.b.exec"
          (notifySteps runningEnv (notifySteps runningEnv scenarioRejected).state).state.trace
          = 1
      ∧ (notifySteps runningEnv (notifySteps runningEnv scenarioRejected).state).state.inputsNotified
          = ["steps.a.exec", "steps.b.exec"] :=
  ⟨by decide!, by decide!, by decide!, by decide!⟩

/-- Witness of claim C7 (amended): the deadlock report of scenario S4 is repeated by a second
pass, which changes nothing else. -/
theorem notifySteps_idempotent_witness :
    notifySteps (scenarioEnv finishedStepStates) scenarioFinishedStep
        = PassResult.completed
            (notifySteps (scenarioEnv finishedStepStates) scenarioFinishedStep).state
      ∧ ∃ l2, notifySteps (scenarioEnv finishedStepStates)
            (notifySteps (scenarioEnv finishedStepStates) scenarioFinishedStep).state
          = PassResult.completed l2
        ∧ (∀ id, provideCount id l2.trace = provideCount id
            (notifySteps (scenarioEnv finishedStepStates) scenarioFinishedStep).state.trace)
        ∧ sendCount l2.trace = sendCount
            (notifySteps (scenarioEnv finishedStepStates) scenarioFinishedStep).state.trace
        ∧ l2.inputsNotified
            = (notifySteps (scenarioEnv finishedStepStates) scenarioFinishedStep).state.inputsNotified
        ∧ l2.dag = (notifySteps (scenarioEnv finishedStepStates) scenarioFinishedStep).state.dag
        ∧ l2.data = (notifySteps (scenarioEnv finishedStepStates) scenarioFinishedStep).state.data
        ∧ l2.outputDone
            = (notifySteps (scenarioEnv finishedStepStates) scenarioFinishedStep).state.outputDone
        ∧ l2.lastError
            = (notifySteps (scenarioEnv finishedStepStates) scenarioFinishedStep).state.lastError
        ∧ l2.outputDataChannel
            = (notifySteps (scenarioEnv finishedStepStates)
                scenarioFinishedStep).state.outputDataChannel :=
  ⟨rfl, notifySteps_idempotent (scenarioEnv finishedStepStates) scenarioFinishedStep _ rfl⟩

/-- Counterexample to claim C8 as stated: the first pass returns early when the schema of
step `a` rejects its input; afterwards the only step waits for input and the output is not
produced, yet the next pass dispatches the ready node `output` instead of reporting
deadlock. -/
theorem output_produced_instead_of_deadlock :
    (notifySteps waitingEnv scenarioRejectedThenOutput).state.outputDone = false
      ∧ (notifySteps waitingEnv scenarioRejectedThenOutput).state.runningSteps = ["a"]
      ∧ waitingEnv.State "a" = RunningStepStateWaitingForInput
      ∧ List.countP Event.isDeadlock
          (notifySteps waitingEnv
            (notifySteps waitingEnv scenarioRejectedThenOutput).state).state.trace = 0
      ∧ (notifySteps waitingEnv
          (notifySteps waitingEnv scenarioRejectedThenOutput).state).state.lastError
          = some (Error.schemaBug "steps.a.exec" (Error.external "invalid"))
      ∧ (notifySteps waitingEnv
          (notifySteps waitingEnv scenarioRejectedThenOutput).state).state.outputDone = true :=
  ⟨by decide!, by decide!, by decide!, by decide!, by decide!, by decide!⟩

/-- Witness of claim C8 (amended): in the scenario in which `output` waits for a stage output
that never occurs and both steps wait for input, the next pass reports deadlock. -/
theorem deadlock_reported_when_all_waiting_witness :
    notifySteps waitingEnv scenarioFinishedStep
        = PassResult.completed (notifySteps waitingEnv scenarioFinishedStep).state
      ∧ (notifySteps waitingEnv scenarioFinishedStep).state.runningSteps ≠ []
      ∧ (∀ id ∈ (notifySteps waitingEnv scenarioFinishedStep).state.runningSteps,
          waitingEnv.State id = RunningStepStateWaitingForInput)
      ∧ (notifySteps waitingEnv scenarioFinishedStep).state.outputDone = false
      ∧ ∃ l2, notifySteps waitingEnv (notifySteps waitingEnv scenarioFinishedStep).state
          = PassResult.completed l2
        ∧ l2.lastError = some (Error.deadlock
            ((notifySteps waitingEnv scenarioFinishedStep).state.dag.ListInboundConnections
              "output"))
        ∧ l2.cancelled = true
        ∧ l2.trace = (notifySteps waitingEnv scenarioFinishedStep).state.trace ++
            [Event.errorf (Error.deadlock
              ((notifySteps waitingEnv scenarioFinishedStep).state.dag.ListInboundConnections
                "output")), Event.cancel] :=
  ⟨rfl, by decide!, by decide!, by decide!,
    deadlock_reported_when_all_waiting waitingEnv waitingEnv scenarioFinishedStep _ rfl
      ⟨workflowOutputNode (Value.expr "input.x"), List.mem_cons_self _ _, rfl⟩
      (by decide!) (by decide!) (by decide!)⟩

/-- Witness of claim C9 on scenario S1: stage `exec` of step `a` completes with output
`done`; the stage node and the node of `done` are removed, the node of the other output
`failed` persists, and the output is stored at `steps.a.exec.done`. -/
theorem onStageComplete_effect_witness :
    (onStageComplete runningEnv scenarioStraightLine "a" (some "exec") (some "done")
        (some helloOutput)).state.dag.nodes.map Node.ID = ["steps.a.exec.failed", "output"]
      ∧ getPath (onStageComplete runningEnv scenarioStraightLine "a" (some "exec")
          (some "done") (some helloOutput)).state.data ["steps", "a", "exec", "done"]
          = some helloOutput
      ∧ (onStageComplete runningEnv scenarioStraightLine "a" none (some "done")
          (some helloOutput)).state.dag = scenarioStraightLine.dag :=
  ⟨by decide!,
    ((onStageComplete_effect runningEnv scenarioStraightLine "a" (some "exec") (some "done")
      (some helloOutput)).2 "exec" rfl
      ⟨stageNode "steps.a.exec" "a" "exec" plainInput (some acceptAll),
        List.mem_cons_self _ _, by decide!⟩
      (fun o ho => by
        cases ho
        exact ⟨⟨markerNode "steps.a.exec.done",
          List.mem_cons_of_mem _ (List.mem_cons_self _ _), by decide!⟩, by decide!,
          ⟨helloOutput, rfl⟩⟩)
      ⟨_, rfl⟩).2.2.1 "done" helloOutput rfl rfl,
    ((onStageComplete_effect runningEnv scenarioStraightLine "a" none (some "done")
      (some helloOutput)).1 rfl).1⟩

/-- Counterexample to claim C10 as stated: a ready, not notified `StepStage` node with an
input template, non-empty `StepID` and `StageID` and no `InputSchema`; the template resolves
without error, the pass runs to its end, and `ProvideStageInput` is not called (the pass
makes no call at all). -/
theorem no_delivery_without_schema :
    scenarioNoSchema.dag.ListNodesWithoutInboundConnections.map Node.ID = ["steps.a.exec"]
      ∧ "steps.a.exec" ∉ scenarioNoSchema.inputsNotified
      ∧ scenarioNoSchema.dag.nodes.map (fun n => n.Item.Kind) = [DAGItemKindStepStage]
      ∧ scenarioNoSchema.dag.nodes.map (fun n => n.Item.Input.isNil) = [false]
      ∧ scenarioNoSchema.dag.nodes.map (fun n => (n.Item.StepID, n.Item.StageID))
          = [("a", "exec")]
      ∧ scenarioNoSchema.dag.nodes.map (fun n => n.Item.InputSchema.isNone) = [true]
      ∧ resolveExpressions runningEnv scenarioNoSchema.workflowContext scenarioNoSchema.data
          plainInput = Except.ok plainInput
      ∧ scenarioNoSchema.trace = []
      ∧ (notifySteps runningEnv scenarioNoSchema).state.trace.length = 0
      ∧ (notifySteps runningEnv scenarioNoSchema).state.inputsNotified = ["steps.a.exec"] :=
  ⟨by decide!, by decide!, by decide!, by decide!, by decide!, by decide!, rfl, rfl,
    by decide!, by decide!⟩

/-- Witness of claim C10 (amended) on scenario S1: the first pass delivers `x: 1` to stage
`exec` of step `a`. -/
theorem stage_input_delivered_witness :
    scenarioStraightLine.dag.ListNodesWithoutInboundConnections.map Node.ID
        = ["steps.a.exec"]
      ∧ ∃ (m : List (String × Value)) (new : List Event),
        (notifySteps runningEnv scenarioStraightLine).state.trace
            = scenarioStraightLine.trace ++ new
          ∧ Event.provide "steps.a.exec" "a" "exec" m ∈ new
          ∧ m.map (fun kv => (Key.str kv.1, kv.2))
            = [(Key.str "x", Value.scalar (Scalar.int 1))] :=
  ⟨by decide!,
    stage_input_delivered runningEnv scenarioStraightLine scenarioStraightLine [] []
      (stageNode "steps.a.exec" "a" "exec" plainInput (some acceptAll)) acceptAll
      [(Key.str "x", Value.scalar (Scalar.int 1))] plainInput
      (by decide!) rfl rfl (by decide!) rfl rfl (by decide!) (by decide!) (by decide!) rfl
      rfl rfl rfl
      (fun kv hkv => by
        rw [List.mem_singleton] at hkv
        subst hkv
        exact ⟨"x", rfl⟩)⟩

/-- Evaluation for claim C4: step `a` is launched, the launch of step `b` fails, and `Execute`
returns the launch error without any `Close` call: the running step of `a` is not closed.
When both steps are launched and the workflow runs to its output, each running step is
closed once. -/
theorem launch_failure_leaves_step_open :
    (Execute twoStepWorkflow secondStartFails (Value.map [])).trace
        = [Event.start "a", Event.start "b", Event.cancel]
      ∧ (Execute twoStepWorkflow secondStartFails (Value.map [])).outcome
        = Outcome.returned none
            (some (Error.launchFailed "b" (Error.external "cannot start")))
      ∧ secondStartFails.Start "a" = none
      ∧ List.countP (Event.isClose "a")
          (Execute twoStepWorkflow secondStartFails (Value.map [])).trace = 0
      ∧ List.countP (Event.isClose "a")
          (Execute twoStepWorkflow bothComplete (Value.map [])).trace = 1
      ∧ List.countP (Event.isClose "b")
          (Execute twoStepWorkflow bothComplete (Value.map [])).trace = 1 :=
  ⟨rfl, rfl, rfl, by decide!, by decide!, by decide!⟩

/-- Evaluation for claim C5: after the launch loop the data model holds an empty mapping at
`steps.a`, and nothing at `steps.a.exec`, although `exec` is a stage of step `a`. -/
theorem stage_placeholders_lost :
    twoStepWorkflow.stages "a" = ["exec"]
      ∧ getPath (launchSteps twoStepWorkflow allStart
          (newLoopState twoStepWorkflow (Value.map []))
          twoStepWorkflow.runnableSteps).state.data ["steps", "a"] = some (Value.map [])
      ∧ getPath (launchSteps twoStepWorkflow allStart
          (newLoopState twoStepWorkflow (Value.map []))
          twoStepWorkflow.runnableSteps).state.data ["steps", "a", "exec"] = none :=
  ⟨by decide!, rfl, rfl⟩

/-- Evaluation for claim C6: in the set-up of step `a`, the loop over the stages sets
`steps.a` and `steps.a.exec`; line 82 then writes `steps.a` again, and the value that was
at `steps.a.exec` is gone. -/
theorem set_up_overwrites_step_entry :
    (∃ d1 d2, placeholderStages "a" (newLoopState twoStepWorkflow (Value.map [])).data
          ["exec"] = some d1
        ∧ getPath d1 ["steps", "a"] = some (Value.map [(Key.str "exec", Value.map [])])
        ∧ getPath d1 ["steps", "a", "exec"] = some (Value.map [])
        ∧ setStepDataModel d1 "a" (Value.map []) = some d2
        ∧ getPath d2 ["steps", "a"] = some (Value.map [])
        ∧ getPath d2 ["steps", "a", "exec"] = none
        ∧ setUpStepData twoStepWorkflow (newLoopState twoStepWorkflow (Value.map [])).data "a"
          = some d2) :=
  ⟨_, _, rfl, rfl, rfl, rfl, rfl, rfl, rfl⟩

/-! ## Invariants that hold in every state `Execute` reaches -/

theorem notifyNode_keeps_outputInvariant (env : Env) (l : loopState) (node : Node)
    (hn : node ∈ l.dag.nodes) (hwf : OutputNodeWellFormed l.dag) (hinv : OutputInvariant l)
    (halive : (notifyNode env l node).isPanicked = false) :
    OutputInvariant (notifyNode env l node).state := by
  by_cases hnot : node.ID ∈ l.inputsNotified
  · rw [notifyNode_notified env l node hnot]
    exact hinv
  · by_cases hid : node.ID = "output"
    · obtain ⟨hkind, hinput⟩ := hwf node hn hid
      simp only [notifyNode, if_neg hnot, hinput, dispatch, hkind, Bool.false_eq_true,
        if_false] at halive ⊢
      cases hres : resolveExpressions env l.workflowContext l.data node.Item.Input with
      | error err => simp [hres, PassResult.isPanicked] at halive
      | ok v =>
        intro _
        rfl
    · have hstep := notifyNode_loopStep env l node
      intro hin
      rcases hstep.bound "output" hin with h | h
      · exact hstep.done (hinv h)
      · exact absurd (by simpa using h : "output" = node.ID).symm hid

theorem notifyLoop_keeps_outputInvariant (env : Env) (nodes : List Node) :
    ∀ l : loopState, (∀ n ∈ nodes, n ∈ l.dag.nodes) → OutputNodeWellFormed l.dag →
      OutputInvariant l → (notifyLoop env l nodes).isPanicked = false →
      OutputInvariant (notifyLoop env l nodes).state := by
  induction nodes with
  | nil => intro l _ _ hinv _; exact hinv
  | cons node rest ih =>
    intro l hsub hwf hinv halive
    have h1 := notifyNode_keeps_outputInvariant env l node
      (hsub node (List.mem_cons_self _ _)) hwf hinv
    have hf := notifyNode_frame env l node
    simp only [notifyLoop] at halive ⊢
    cases hnode : notifyNode env l node with
    | completed l1 =>
      rw [hnode] at h1 hf halive
      have hdag : l1.dag = l.dag := hf.1
      exact ih l1 (fun n hn => hdag ▸ hsub n (List.mem_cons_of_mem _ hn)) (hdag ▸ hwf)
        (h1 rfl) halive
    | returned l1 =>
      rw [hnode] at h1
      exact h1 rfl
    | panicked l1 e =>
      rw [hnode] at halive
      cases halive

theorem deadlockCheck_keeps (env : Env) (l : loopState) :
    (deadlockCheck env l).state.inputsNotified = l.inputsNotified
      ∧ (deadlockCheck env l).state.outputDone = l.outputDone := by
  unfold deadlockCheck
  repeat' split
  all_goals exact ⟨rfl, rfl⟩

theorem notifySteps_keeps_outputInvariant (env : Env) (l : loopState)
    (hwf : OutputNodeWellFormed l.dag) (hinv : OutputInvariant l)
    (halive : (notifySteps env l).isPanicked = false) :
    OutputInvariant (notifySteps env l).state := by
  have hloop := notifyLoop_keeps_outputInvariant env
    l.dag.ListNodesWithoutInboundConnections l (fun n hn => List.mem_of_mem_filter hn) hwf hinv
  simp only [notifySteps] at halive ⊢
  cases hl : notifyLoop env l l.dag.ListNodesWithoutInboundConnections with
  | completed l1 =>
    rw [hl] at hloop
    have hk := deadlockCheck_keeps env l1
    intro hin
    rw [hk.1] at hin
    rw [hk.2]
    exact hloop rfl hin
  | returned l1 =>
    rw [hl] at hloop
    exact hloop rfl
  | panicked l1 e =>
    rw [hl] at halive
    cases halive

theorem onStageCompleteLocked_keeps (env : Env) (l : loopState) (stepID : String)
    (prev outputID : Option String) (output : Option Value) :
    (onStageCompleteLocked env l stepID prev outputID output).state.inputsNotified
        = l.inputsNotified
      ∧ (onStageCompleteLocked env l stepID prev outputID output).state.outputDone
        = l.outputDone
      ∧ (onStageCompleteLocked env l stepID prev outputID output).state.runningSteps
        = l.runningSteps := by
  unfold onStageCompleteLocked
  split
  · exact ⟨rfl, rfl, rfl⟩
  · split
    · exact ⟨rfl, rfl, rfl⟩
    · split
      · exact ⟨rfl, rfl, rfl⟩
      · split
        · exact ⟨rfl, rfl, rfl⟩
        · unfold removeOutput
          split
          · exact ⟨rfl, rfl, rfl⟩
          · split
            · exact ⟨rfl, rfl, rfl⟩
            · unfold storeOutput
              repeat' split
              all_goals exact ⟨rfl, rfl, rfl⟩

theorem OutputNodeWellFormed.of_subset {d d1 : DirectedGraph}
    (h : OutputNodeWellFormed d) (hsub : d1.nodes ⊆ d.nodes) : OutputNodeWellFormed d1 :=
  fun n hn hid => h n (hsub hn) hid

theorem onStageComplete_keeps_outputInvariant (env : Env) (l : loopState) (stepID : String)
    (prev outputID : Option String) (output : Option Value)
    (hwf : OutputNodeWellFormed l.dag) (hinv : OutputInvariant l)
    (halive : (onStageComplete env l stepID prev outputID output).isPanicked = false) :
    OutputInvariant (onStageComplete env l stepID prev outputID output).state := by
  have hk := onStageCompleteLocked_keeps env l stepID prev outputID output
  have hext := onStageCompleteLocked_extends env l stepID prev outputID output
  have hinv1 : OutputInvariant
      (onStageCompleteLocked env l stepID prev outputID output).state := by
    intro hin
    rw [hk.1] at hin
    rw [hk.2.1]
    exact hinv hin
  have hwf1 := hwf.of_subset hext.nodes
  simp only [onStageComplete] at halive ⊢
  cases hl : onStageCompleteLocked env l stepID prev outputID output with
  | panicked l1 e =>
    rw [hl] at halive
    cases halive
  | completed l1 =>
    rw [hl] at hinv1 hwf1 halive
    exact notifySteps_keeps_outputInvariant env l1 hwf1 hinv1 halive
  | returned l1 =>
    rw [hl] at hinv1 hwf1 halive
    exact notifySteps_keeps_outputInvariant env l1 hwf1 hinv1 halive

/-- Every state reached from a state with the output invariant by calls that do not panic has
the output invariant: it is marked notified only when the output was produced.  The fresh
loop state of `Execute` has it, since its notified set is empty. -/
theorem runCalls_keeps_outputInvariant (calls : List Call) :
    ∀ l : loopState, OutputNodeWellFormed l.dag → OutputInvariant l →
      (runCalls l calls).isPanicked = false →
      OutputInvariant (runCalls l calls).state
        ∧ OutputNodeWellFormed (runCalls l calls).state.dag := by
  induction calls with
  | nil => intro l hwf hinv _; exact ⟨hinv, hwf⟩
  | cons c rest ih =>
    intro l hwf hinv halive
    have hstep : (c.run l).isPanicked = false → OutputInvariant (c.run l).state := by
      cases c with
      | notify env => exact notifySteps_keeps_outputInvariant env l hwf hinv
      | stageComplete env stepID prev outputID output =>
        exact onStageComplete_keeps_outputInvariant env l stepID prev outputID output hwf hinv
    have hwf1 : OutputNodeWellFormed (c.run l).state.dag :=
      hwf.of_subset (Call.run_extends l c).nodes
    simp only [runCalls] at halive ⊢
    cases hc : c.run l with
    | panicked l1 e =>
      rw [hc] at halive
      cases halive
    | completed l1 =>
      rw [hc] at hstep hwf1 halive
      exact ih l1 hwf1 (hstep rfl) halive
    | returned l1 =>
      rw [hc] at hstep hwf1 halive
      exact ih l1 hwf1 (hstep rfl) halive

theorem mapGet_mapSet_other (m : List (Key × Value)) (k k' : Key) (v : Value)
    (h : k' ≠ k) : mapGet (mapSet m k v) k' = mapGet m k' := by
  induction m with
  | nil => simp [mapSet, mapGet, h.symm]
  | cons kv rest ih =>
    obtain ⟨k0, v0⟩ := kv
    by_cases h0 : k0 = k
    · subst h0
      simp [mapSet, mapGet, h.symm]
    · by_cases h1 : k0 = k'
      · subst h1
        simp [mapSet, mapGet, h0]
      · simp [mapSet, mapGet, h0, h1, ih]

/-- Reading `steps.<stepID>` from a data model whose `steps` entry is a mapping. -/
theorem getPath_steps (top steps : List (Key × Value)) (stepID : String)
    (h : mapGet top (Key.str "steps") = some (Value.map steps)) :
    getPath (Value.map top) ["steps", stepID] = mapGet steps (Key.str stepID) := by
  simp only [getPath, h]
  cases mapGet steps (Key.str stepID) <;> rfl

/-- A write below `steps.<stepID>` keeps a mapping at `steps.<other>` for every step. -/
theorem written_steps_keep_maps (top steps : List (Key × Value)) (stepID other : String)
    (entry : List (Key × Value))
    (hsteps : mapGet top (Key.str "steps") = some (Value.map steps))
    (h : other ≠ stepID →
      ∃ stages, getPath (Value.map top) ["steps", other] = some (Value.map stages)) :
    ∃ stages, getPath (Value.map (mapSet top (Key.str "steps")
        (Value.map (mapSet steps (Key.str stepID) (Value.map entry))))) ["steps", other]
      = some (Value.map stages) := by
  rw [getPath_steps _ _ other (mapGet_mapSet_self top _ _)]
  by_cases hne : other = stepID
  · subst hne
    exact ⟨entry, mapGet_mapSet_self steps _ _⟩
  · rw [mapGet_mapSet_other steps _ _ _ (by simpa [Key.str] using hne)]
    have h1 := h hne
    rw [getPath_steps _ _ other hsteps] at h1
    exact h1

theorem setStage_some {data data1 : Value} {stepID stage : String} {v : Value}
    (h : setStage data stepID stage v = some data1) :
    ∃ top steps stages, data = Value.map top
      ∧ mapGet top (Key.str "steps") = some (Value.map steps)
      ∧ mapGet steps (Key.str stepID) = some (Value.map stages)
      ∧ data1 = Value.map (mapSet top (Key.str "steps")
          (Value.map (mapSet steps (Key.str stepID)
            (Value.map (mapSet stages (Key.str stage) v))))) := by
  unfold setStage at h
  split at h
  · rename_i top
    split at h
    · rename_i steps hsteps
      split at h
      · rename_i stages hstages
        injection h with h
        exact ⟨top, steps, stages, rfl, hsteps, hstages, h.symm⟩
      · cases h
    · cases h
  · cases h

theorem setStage_keeps_maps {data data1 : Value} {stepID stage : String} {v : Value}
    (h : setStage data stepID stage v = some data1) (other : String)
    (hother : ∃ stages, getPath data ["steps", other] = some (Value.map stages)) :
    ∃ stages, getPath data1 ["steps", other] = some (Value.map stages) := by
  obtain ⟨top, steps, stages, hd, hsteps, _, hd1⟩ := setStage_some h
  subst hd hd1
  exact written_steps_keep_maps top steps stepID other _ hsteps (fun _ => hother)

theorem setStageOutput_keeps_maps {data data1 : Value} {stepID stage outputID : String}
    {v : Value} (h : setStageOutput data stepID stage outputID v = some data1)
    (other : String)
    (hother : ∃ stages, getPath data ["steps", other] = some (Value.map stages)) :
    ∃ stages, getPath data1 ["steps", other] = some (Value.map stages) := by
  unfold setStageOutput at h
  split at h
  · split at h
    · split at h
      · split at h
        · exact setStage_keeps_maps h other hother
        · cases h
      · cases h
    · cases h
  · cases h

theorem storeOutput_keeps_maps (l : loopState) (stepID stage outputID : String)
    (output : Option Value) (other : String)
    (hother : ∃ stages, getPath l.data ["steps", other] = some (Value.map stages)) :
    ∃ stages, getPath (storeOutput l stepID stage outputID output).state.data
      ["steps", other] = some (Value.map stages) := by
  unfold storeOutput
  split
  · exact hother
  · rename_i data1 h1
    have hk1 := setStage_keeps_maps h1 other hother
    split
    · exact hk1
    · split
      · exact hk1
      · rename_i data2 h2
        exact setStageOutput_keeps_maps h2 other hk1

theorem onStageCompleteLocked_keeps_maps (env : Env) (l : loopState) (stepID : String)
    (prev outputID : Option String) (output : Option Value) (other : String)
    (hother : ∃ stages, getPath l.data ["steps", other] = some (Value.map stages)) :
    ∃ stages, getPath (onStageCompleteLocked env l stepID prev outputID output).state.data
      ["steps", other] = some (Value.map stages) := by
  unfold onStageCompleteLocked
  split
  · exact hother
  · split
    · exact hother
    · split
      · exact hother
      · split
        · exact hother
        · unfold removeOutput
          split
          · exact hother
          · split
            · exact hother
            · exact storeOutput_keeps_maps _ stepID _ _ output other hother

theorem notifySteps_keeps_stepMaps (env : Env) (l : loopState) (h : StepMapsInvariant l) :
    StepMapsInvariant (notifySteps env l).state := by
  have hf := notifySteps_frame env l
  have h1 : (notifySteps env l).state.runningSteps = l.runningSteps := hf.2.2.1
  have h2 : (notifySteps env l).state.data = l.data := hf.2.1
  intro s hs
  rw [h1] at hs
  rw [h2]
  exact h s hs

theorem Call.run_keeps_stepMaps (l : loopState) (c : Call) (h : StepMapsInvariant l) :
    StepMapsInvariant (c.run l).state := by
  cases c with
  | notify env => exact notifySteps_keeps_stepMaps env l h
  | stageComplete env stepID prev outputID output =>
    have hk := onStageCompleteLocked_keeps env l stepID prev outputID output
    have hlocked : StepMapsInvariant
        (onStageCompleteLocked env l stepID prev outputID output).state := by
      intro s hs
      rw [hk.2.2] at hs
      exact onStageCompleteLocked_keeps_maps env l stepID prev outputID output s (h s hs)
    simp only [Call.run, onStageComplete]
    cases hl : onStageCompleteLocked env l stepID prev outputID output with
    | panicked l1 e =>
      rw [hl] at hlocked
      exact hlocked
    | completed l1 =>
      rw [hl] at hlocked
      exact notifySteps_keeps_stepMaps env l1 hlocked
    | returned l1 =>
      rw [hl] at hlocked
      exact notifySteps_keeps_stepMaps env l1 hlocked

/-- Every state reached by scheduler calls from a state in which the data model holds a
mapping at `steps.<stepID>` for every running step is such a state. -/
theorem runCalls_keeps_stepMaps (calls : List Call) :
    ∀ l : loopState, StepMapsInvariant l → StepMapsInvariant (runCalls l calls).state := by
  induction calls with
  | nil => intro l h; exact h
  | cons c rest ih =>
    intro l h
    have h1 := Call.run_keeps_stepMaps l c h
    simp only [runCalls]
    cases hc : c.run l with
    | panicked l1 e => rw [hc] at h1; exact h1
    | completed l1 => rw [hc] at h1; exact ih l1 h1
    | returned l1 => rw [hc] at h1; exact ih l1 h1
theorem mapSet_mapSet_self (m : List (Key × Value)) (k : Key) (v1 v2 : Value) :
    mapSet (mapSet m k v1) k v2 = mapSet m k v2 := by
  induction m with
  | nil => simp [mapSet]
  | cons kv rest ih =>
    obtain ⟨k0, v0⟩ := kv
    by_cases hk : k0 = k
    · simp [mapSet, hk]
    · simp [mapSet, hk, ih]

theorem placeholderStage_some {data data1 : Value} {stepID stageID : String}
    (h : placeholderStage data stepID stageID = some data1) :
    ∃ top steps entry, data = Value.map top
      ∧ mapGet top (Key.str "steps") = some (Value.map steps)
      ∧ data1 = Value.map (mapSet top (Key.str "steps")
          (Value.map (mapSet steps (Key.str stepID) (Value.map entry)))) := by
  unfold placeholderStage at h
  split at h
  · rename_i top
    split at h
    · rename_i steps hsteps
      simp only at h
      cases hget : mapGet steps (Key.str stepID) with
      | some v =>
        simp only [hget] at h
        cases v with
        | map stages =>
          simp only at h
          injection h with h
          exact ⟨top, steps, _, rfl, hsteps, h.symm⟩
        | scalar s => simp at h
        | expr x => simp at h
        | slice xs => simp at h
      | none =>
        simp only [hget, mapGet_mapSet_self, mapSet_mapSet_self] at h
        injection h with h
        exact ⟨top, steps, mapSet [] (Key.str stageID) (Value.map []), rfl, hsteps, h.symm⟩
    · cases h
  · cases h

theorem placeholderStages_keeps (stepID : String) (stageIDs : List String) :
    ∀ data data1 : Value, placeholderStages stepID data stageIDs = some data1 →
      (∃ steps, getPath data ["steps"] = some (Value.map steps)) →
      (∃ steps, getPath data1 ["steps"] = some (Value.map steps))
        ∧ ∀ other, other ≠ stepID →
          (∃ stages, getPath data ["steps", other] = some (Value.map stages)) →
          ∃ stages, getPath data1 ["steps", other] = some (Value.map stages) := by
  induction stageIDs with
  | nil =>
    intro data data1 h hshape
    injection h with h
    subst h
    exact ⟨hshape, fun _ _ h => h⟩
  | cons stageID rest ih =>
    intro data data1 h hshape
    simp only [placeholderStages] at h
    cases hp : placeholderStage data stepID stageID with
    | none => simp [hp] at h
    | some data0 =>
      simp only [hp] at h
      obtain ⟨top, steps, entry, hd, hsteps, hd0⟩ := placeholderStage_some hp
      subst hd hd0
      have hshape0 : ∃ steps0, getPath (Value.map (mapSet top (Key.str "steps")
          (Value.map (mapSet steps (Key.str stepID) (Value.map entry))))) ["steps"]
          = some (Value.map steps0) :=
        ⟨_, by simp only [getPath, mapGet_mapSet_self]; rfl⟩
      obtain ⟨hs1, hk1⟩ := ih _ data1 h hshape0
      refine ⟨hs1, fun other hne hother => hk1 other hne ?_⟩
      exact written_steps_keep_maps top steps stepID other entry hsteps (fun _ => hother)

theorem setUpStepData_maps (e : executableWorkflow) (data data1 : Value) (stepID : String)
    (h : setUpStepData e data stepID = some data1)
    (hshape : ∃ steps, getPath data ["steps"] = some (Value.map steps)) :
    (∃ steps, getPath data1 ["steps"] = some (Value.map steps))
      ∧ (∃ stages, getPath data1 ["steps", stepID] = some (Value.map stages))
      ∧ ∀ other, (∃ stages, getPath data ["steps", other] = some (Value.map stages)) →
          ∃ stages, getPath data1 ["steps", other] = some (Value.map stages) := by
  simp only [setUpStepData] at h
  cases hp : placeholderStages stepID data (e.stages stepID) with
  | none => simp [hp] at h
  | some data0 =>
    simp only [hp] at h
    obtain ⟨hshape0, hkeep0⟩ := placeholderStages_keeps stepID _ data data0 hp hshape
    unfold setStepDataModel at h
    split at h
    · rename_i top
      split at h
      · rename_i steps hsteps
        injection h with h
        subst h
        refine ⟨⟨_, by simp only [getPath, mapGet_mapSet_self]; rfl⟩, ?_,
          fun other hother => ?_⟩
        · exact written_steps_keep_maps top steps stepID stepID [] hsteps
            (fun hne => absurd rfl hne)
        · exact written_steps_keep_maps top steps stepID other [] hsteps
            (fun hne => hkeep0 other hne hother)
      · cases h
    · cases h

theorem launchSteps_stepMaps (e : executableWorkflow) (w : World) (steps : List String) :
    ∀ l l1 : loopState, launchSteps e w l steps = LaunchResult.launched l1 →
      (∃ steps0, getPath l.data ["steps"] = some (Value.map steps0)) →
      StepMapsInvariant l →
      StepMapsInvariant l1 ∧ l1.runningSteps = l.runningSteps ++ steps := by
  induction steps with
  | nil =>
    intro l l1 h _ hinv
    injection h with h
    subst h
    exact ⟨hinv, by simp⟩
  | cons stepID rest ih =>
    intro l l1 h hshape hinv
    simp only [launchSteps] at h
    cases hs : setUpStepData e l.data stepID with
    | none => simp [hs] at h
    | some data1 =>
      simp only [hs] at h
      obtain ⟨hshape1, hself, hkeep⟩ := setUpStepData_maps e l.data data1 stepID hs hshape
      cases hstart : w.Start stepID with
      | some err => simp [hstart] at h
      | none =>
        simp only [hstart] at h
        obtain ⟨hinv1, hrun1⟩ := ih _ l1 h hshape1 (by
          intro s hs
          rcases List.mem_append.mp hs with h1 | h1
          · exact hkeep s (hinv s h1)
          · rw [List.mem_singleton] at h1
            subst h1
            exact hself)
        exact ⟨hinv1, by rw [hrun1]; simp⟩

/-- After the launch loop of `Execute` every step of the workflow is a running step, and the
data model holds a mapping at `steps.<stepID>` for each of them. -/
theorem launched_steps_have_maps (e : executableWorkflow) (w : World) (input : Value)
    (l : loopState)
    (h : launchSteps e w (newLoopState e input) e.runnableSteps = LaunchResult.launched l) :
    StepMapsInvariant l ∧ l.runningSteps = e.runnableSteps := by
  have hshape : ∃ steps0, getPath (newLoopState e input).data ["steps"]
      = some (Value.map steps0) := ⟨[], rfl⟩
  have := launchSteps_stepMaps e w e.runnableSteps (newLoopState e input) l h hshape
    (fun s hs => by cases hs)
  simpa [newLoopState] using this

/-- The type assertion of line 245: when the resolved value is not of dynamic type
`map[any]any`, the visit of the node panics after the schema check and makes no call. -/
theorem notifyNode_panics_on_other_type (env : Env) (l : loopState) (node : Node)
    (inputSchema : Schema) (v checked : Value)
    (hfresh : node.ID ∉ l.inputsNotified)
    (hkind : node.Item.Kind = DAGItemKindStepStage)
    (hinput : node.Item.Input.isNil = false)
    (hstep : node.Item.StepID ≠ "") (hstage : node.Item.StageID ≠ "")
    (hschema : node.Item.InputSchema = some inputSchema)
    (hres : resolveExpressions env l.workflowContext l.data node.Item.Input = Except.ok v)
    (hdyn : resolvesToAnyKeyedMap env l.workflowContext l.data node.Item.Input = false)
    (hacc : inputSchema.Unserialize v = Except.ok checked) :
    (notifyNode env l node).isPanicked = true
      ∧ (notifyNode env l node).state.trace = l.trace := by
  have hcond : node.Item.StepID ≠ "" ∧ node.Item.StageID ≠ "" := ⟨hstep, hstage⟩
  have hassert : assertAnyKeyedMap v false = none := by
    unfold assertAnyKeyedMap
    cases v <;> rfl
  simp only [notifyNode, if_neg hfresh, hinput, hres, dispatch, hkind, hschema, hacc,
    provideInput, if_pos hcond, hdyn, hassert, Bool.false_eq_true, if_false]
  exact ⟨rfl, rfl⟩

/-- Evaluation of the type assertion of line 245 on a template that is a whole expression:
when `Evaluate` returns the map `x: 1` as a `map[any]any`, the pass delivers it; when it
returns the same entries in a map of another type, the pass panics and `ProvideStageInput`
is not called. -/
theorem whole_template_expression_delivery :
    provideCount "steps.a.exec"
        (notifySteps (wholeTemplateEnv true) scenarioWholeTemplate).state.trace = 1
      ∧ (notifySteps (wholeTemplateEnv true) scenarioWholeTemplate).isPanicked = false
      ∧ provideCount "steps.a.exec"
          (notifySteps (wholeTemplateEnv false) scenarioWholeTemplate).state.trace = 0
      ∧ (notifySteps (wholeTemplateEnv false) scenarioWholeTemplate).isPanicked = true :=
  ⟨by decide!, by decide!, by decide!, by decide!⟩

end Workflow
